import Mathlib

/-!
Verification development for the analytical core of the quark-engine
repository (APK tamper-repair, register table, value-node graph).

Shallow embedding conventions:
* Python byte buffers (`mmap`) become `List Nat` with every byte `< 256`
  where it matters; multi-byte little-endian integers are assembled and
  split with explicit `% 256` arithmetic.
* Python exceptions become `Except PyErr` results; a `try/except` block
  becomes a `match` on the `Except` value.
* Object identity of value nodes becomes explicit node identifiers
  (`Nat`) together with a content map, because the source compares nodes
  by `id(..)` and cycles can be formed through field mutation.
-/

/-- Python exception kinds that the embedded code can raise. -/
inductive PyErr where
  | valueError
  | indexError
  | structError
  deriving DecidableEq, Repr

/-- Decidable equality for embedded Python results, so that concrete
runs can be checked by evaluation. -/
instance {ε α : Type} [DecidableEq ε] [DecidableEq α] :
    DecidableEq (Except ε α) := fun a b =>
  match a, b with
  | .error x, .error y =>
      if h : x = y then isTrue (congrArg Except.error h)
      else isFalse (fun hc => h (by injection hc))
  | .ok x, .ok y =>
      if h : x = y then isTrue (congrArg Except.ok h)
      else isFalse (fun hc => h (by injection hc))
  | .error _, .ok _ => isFalse (fun hc => Except.noConfusion hc)
  | .ok _, .error _ => isFalse (fun hc => Except.noConfusion hc)

/-! ## Register table (`quark/core/struct/tableobject.py`)

The table stores, per register index, a stack (Python list) of register
observations.  The element type is abstract here (the source stores
`RegisterObject` instances); all claims about the table are agnostic in it.
Register indices are modelled as `Nat`, matching the non-negative register
numbers the interpreter uses.
-/

/-- Embedding of `TableObject`: `hash_table` is a list of per-register
stacks, built by `__init__` as `[[] for _ in range(count_reg)]`. -/
structure TableObject (α : Type) where
  hash_table : List (List α)
  deriving DecidableEq, Repr

namespace TableObject

/-- Embedding of `TableObject.__init__(count_reg)`. -/
def new (α : Type) (count_reg : Nat) : TableObject α :=
  ⟨List.replicate count_reg []⟩

/-- Embedding of `TableObject.insert`: `self.hash_table[index].append(var_obj)`
inside `try: ... except IndexError: pass`.  An in-range index appends to the
stack at that index; an out-of-range index raises `IndexError`, which the
`except` swallows, leaving the table unchanged. -/
def insert (t : TableObject α) (index : Nat) (var_obj : α) : TableObject α :=
  if h : index < t.hash_table.length then
    ⟨t.hash_table.set index (t.hash_table[index] ++ [var_obj])⟩
  else
    t

/-- Embedding of `TableObject.getRegValues`: returns
`self.hash_table[index]`, and on `IndexError` returns Python `None`
(modelled as `Option.none`; a real stack is `some stack`). -/
def getRegValues (t : TableObject α) (index : Nat) : Option (List α) :=
  if h : index < t.hash_table.length then
    some t.hash_table[index]
  else
    none

/-- Embedding of `TableObject.getTable`. -/
def getTable (t : TableObject α) : List (List α) :=
  t.hash_table

/-- Embedding of `TableObject.getLatestRegValue`:
`self.hash_table[index][-1]` with no exception handling.  Both an
out-of-range `index` and an empty stack raise `IndexError` (Python's
`[-1]` on an empty list). -/
def getLatestRegValue (t : TableObject α) (index : Nat) : Except PyErr α :=
  if h : index < t.hash_table.length then
    match t.hash_table[index].getLast? with
    | some v => .ok v
    | none => .error .indexError
  else
    .error .indexError

/-- Spec-side helper: a table obtained from `new n` by a sequence of
`insert` operations, used to express "a register that was never written". -/
def applyInserts (t : TableObject α) (ops : List (Nat × α)) : TableObject α :=
  ops.foldl (fun acc op => acc.insert op.1 op.2) t

end TableObject

theorem tableObject_new_length (α : Type) (n : Nat) :
    (TableObject.new α n).hash_table.length = n := by
  simp [TableObject.new]

theorem tableObject_insert_length (t : TableObject α) (i : Nat) (v : α) :
    (t.insert i v).hash_table.length = t.hash_table.length := by
  unfold TableObject.insert
  split <;> simp

theorem tableObject_applyInserts_length (t : TableObject α)
    (ops : List (Nat × α)) :
    (t.applyInserts ops).hash_table.length = t.hash_table.length := by
  induction ops generalizing t with
  | nil => rfl
  | cons op rest ih =>
      simp only [TableObject.applyInserts, List.foldl_cons]
      rw [show (List.foldl (fun acc op => acc.insert op.1 op.2) (t.insert op.1 op.2) rest) =
        (t.insert op.1 op.2).applyInserts rest from rfl, ih,
        tableObject_insert_length]

theorem tableObject_applyInserts_untouched (t : TableObject α)
    (ops : List (Nat × α)) (i : Nat) (hi : i < t.hash_table.length)
    (hnw : ∀ p ∈ ops, p.1 ≠ i) :
    (t.applyInserts ops).hash_table[i]? = t.hash_table[i]? := by
  induction ops generalizing t with
  | nil => rfl
  | cons op rest ih =>
      simp only [TableObject.applyInserts, List.foldl_cons]
      rw [show (List.foldl (fun acc op => acc.insert op.1 op.2) (t.insert op.1 op.2) rest) =
        (t.insert op.1 op.2).applyInserts rest from rfl]
      rw [ih (t.insert op.1 op.2)
        (by rw [tableObject_insert_length]; exact hi)
        (fun p hp => hnw p (List.mem_cons_of_mem _ hp))]
      unfold TableObject.insert
      split
      · have hne : op.1 ≠ i := hnw op (List.mem_cons_self _ _)
        simp [List.getElem?_set_ne hne]
      · rfl

theorem tableObject_getRegValues_eq_getElem? (t : TableObject α) (i : Nat) :
    t.getRegValues i = t.hash_table[i]? := by
  unfold TableObject.getRegValues
  split
  · rw [List.getElem?_eq_getElem]
  · rw [List.getElem?_eq_none (by omega)]

/-- C5 counterexample: on a table sized with register count 2, a read at
the out-of-range index 5 returns Python `None` (`Option.none`), not an
empty collection (`some []`), refuting the claim that out-of-range reads
return an empty collection. -/
theorem tableObject_oob_read_returns_none :
    (TableObject.new Nat 2).getRegValues 5 = none ∧
      (TableObject.new Nat 2).getRegValues 5 ≠ some [] := by
  constructor
  · rfl
  · intro h
    simp [TableObject.new, TableObject.getRegValues] at h

/-- C5 (amended): for a table constructed with register count `n` and
mutated by any sequence of `insert` operations, a write at an index
`i ≥ n` leaves the table completely unchanged and a read at such an index
returns `None`; an in-range read of a register that was never written
returns the empty stack. -/
theorem tableObject_boundary_policy (α : Type) (n : Nat)
    (ops : List (Nat × α)) (i : Nat) (v : α) :
    (n ≤ i →
      ((TableObject.new α n).applyInserts ops).insert i v =
          (TableObject.new α n).applyInserts ops ∧
        ((TableObject.new α n).applyInserts ops).getRegValues i = none) ∧
    (i < n → (∀ p ∈ ops, p.1 ≠ i) →
      ((TableObject.new α n).applyInserts ops).getRegValues i = some []) := by
  have hlen : ((TableObject.new α n).applyInserts ops).hash_table.length = n := by
    rw [tableObject_applyInserts_length, tableObject_new_length]
  constructor
  · intro hin
    constructor
    · unfold TableObject.insert
      rw [dif_neg (by omega)]
    · unfold TableObject.getRegValues
      rw [dif_neg (by omega)]
  · intro hlt hnw
    rw [tableObject_getRegValues_eq_getElem?,
      tableObject_applyInserts_untouched _ _ _ (by rw [tableObject_new_length]; omega) hnw]
    unfold TableObject.new
    rw [List.getElem?_eq_getElem (by simpa using hlt)]
    simp

/-- C5 witness: the amended boundary policy instantiated on a concrete
table of size 2 with one write to register 0. -/
theorem tableObject_boundary_policy_witness :
    ((TableObject.new Nat 2).applyInserts [(0, 7)]).insert 5 9 =
        (TableObject.new Nat 2).applyInserts [(0, 7)] ∧
      ((TableObject.new Nat 2).applyInserts [(0, 7)]).getRegValues 5 = none ∧
      ((TableObject.new Nat 2).applyInserts [(0, 7)]).getRegValues 1 = some [] :=
  ⟨(tableObject_boundary_policy Nat 2 [(0, 7)] 5 9).1 (by omega) |>.1,
   (tableObject_boundary_policy Nat 2 [(0, 7)] 5 9).1 (by omega) |>.2,
   (tableObject_boundary_policy Nat 2 [(0, 7)] 1 9).2 (by omega)
     (by intro p hp; simp only [List.mem_singleton] at hp; subst hp; decide)⟩

/-- C10: `getLatestRegValue` raises `IndexError` whenever the stack at the
given index is empty (in particular for an in-range register that was
never written), and returns the most recent observation once the stack is
non-empty: the read is only defined after at least one insert. -/
theorem tableObject_getLatestRegValue_spec (t : TableObject α) (i : Nat) :
    (t.hash_table[i]? = some [] →
      t.getLatestRegValue i = .error .indexError) ∧
    (t.hash_table[i]? = none →
      t.getLatestRegValue i = .error .indexError) ∧
    (∀ stack v, t.hash_table[i]? = some stack → stack.getLast? = some v →
      t.getLatestRegValue i = .ok v) := by
  refine ⟨?_, ?_, ?_⟩
  · intro hempty
    unfold TableObject.getLatestRegValue
    rcases List.getElem?_eq_some_iff.mp hempty with ⟨hlt, hval⟩
    rw [dif_pos hlt, hval]
    rfl
  · intro hnone
    unfold TableObject.getLatestRegValue
    rw [dif_neg]
    intro hlt
    rw [List.getElem?_eq_getElem hlt] at hnone
    exact Option.noConfusion hnone
  · intro stack v hstack hlast
    unfold TableObject.getLatestRegValue
    rcases List.getElem?_eq_some_iff.mp hstack with ⟨hlt, hval⟩
    rw [dif_pos hlt, hval, hlast]

/-- C10 witness: on a fresh table of size 2, register 1 (in range, never
written) raises `IndexError`; after one insert the latest value is read
back. -/
theorem tableObject_getLatestRegValue_witness :
    (TableObject.new Nat 2).getLatestRegValue 1 = .error .indexError ∧
      ((TableObject.new Nat 2).insert 1 42).getLatestRegValue 1 = .ok 42 :=
  ⟨(tableObject_getLatestRegValue_spec (TableObject.new Nat 2) 1).1 (by decide),
   ((tableObject_getLatestRegValue_spec ((TableObject.new Nat 2).insert 1 42) 1).2.2
      [42] 42 (by decide) (by decide))⟩

/-! ## Value nodes (`quark/core/struct/valuenode.py`)

Node equality in the source is object identity (`__eq__` is `self is value`,
`__hash__` is `id(self)`), and node fields are mutable (the dataclasses are
not frozen), so cyclic graphs are representable.  The embedding therefore
uses explicit node identifiers (`Nat`) plus a content map; a cycle is a
node whose child list contains (a path back to) its own identifier.
Primitive values and `BytecodeOps.data` are modelled as strings (the
interpreter feeds operand text through them; `str(..)` of a string is
itself). -/

/-- Python ASCII whitespace accepted by `int(..)` / `float(..)`. -/
def isPyWhitespace (c : Char) : Bool :=
  c = ' ' || c = '\t' || c = '\n' || c = '\r' || c = '\x0b' || c = '\x0c'

/-- Strip leading and trailing whitespace, as Python's numeric
constructors do before parsing. -/
def stripPyWs (s : List Char) : List Char :=
  ((s.dropWhile isPyWhitespace).reverse.dropWhile isPyWhitespace).reverse

/-- Digit run with Python's underscore rule (an underscore must sit
between two digits), continuing an already-seen first digit. -/
def parseDigitsAux : List Char → Nat → Option Nat
  | [], acc => some acc
  | c :: cs, acc =>
      if c.isDigit then parseDigitsAux cs (acc * 10 + (c.toNat - 48))
      else if c = '_' then
        match cs with
        | c2 :: cs2 =>
            if c2.isDigit then parseDigitsAux cs2 (acc * 10 + (c2.toNat - 48))
            else none
        | [] => none
      else none

/-- Digit run (at least one digit) with Python's underscore rule. -/
def parseDigits : List Char → Option Nat
  | [] => none
  | c :: cs => if c.isDigit then parseDigitsAux cs (c.toNat - 48) else none

/-- Embedding of Python `int(argument)` on a string argument: optional
whitespace, optional sign, then a digit run; any other shape raises
`ValueError`, modelled as `none`. -/
def pythonIntParse (s : String) : Option Int :=
  match stripPyWs s.data with
  | '+' :: rest => (parseDigits rest).map (fun n => (n : Int))
  | '-' :: rest => (parseDigits rest).map (fun n => -(n : Int))
  | rest => (parseDigits rest).map (fun n => (n : Int))

/-- Python float values, modelled exactly: finite values are kept as the
parsed rational (IEEE-754 rounding, signed zero and the binary64 range
are abstracted away; no claim observes them). -/
inductive PyFloat where
  | finite (q : ℚ)
  | inf (neg : Bool)
  | nan
  deriving DecidableEq, Repr

/-- Digit run for a fractional part: value together with the number of
digits consumed (for scaling), with Python's underscore rule. -/
def parseFracDigitsAux : List Char → Nat → Nat → Option (Nat × Nat)
  | [], acc, cnt => some (acc, cnt)
  | c :: cs, acc, cnt =>
      if c.isDigit then parseFracDigitsAux cs (acc * 10 + (c.toNat - 48)) (cnt + 1)
      else if c = '_' then
        match cs with
        | c2 :: cs2 =>
            if c2.isDigit then
              parseFracDigitsAux cs2 (acc * 10 + (c2.toNat - 48)) (cnt + 1)
            else none
        | [] => none
      else none

/-- Fractional digit run (at least one digit). -/
def parseFracDigits : List Char → Option (Nat × Nat)
  | [] => none
  | c :: cs =>
      if c.isDigit then parseFracDigitsAux cs (c.toNat - 48) 1 else none

/-- Split a character list at the first character satisfying `p`,
returning the parts before and after it, or `none` if absent. -/
def splitOnceAt (p : Char → Bool) : List Char → Option (List Char × List Char)
  | [] => none
  | c :: cs =>
      if p c then some ([], cs)
      else (splitOnceAt p cs).map (fun pr => (c :: pr.1, pr.2))

/-- Embedding of Python `float(argument)` on a string argument: optional
whitespace and sign, then `inf`/`infinity`/`nan` (case-insensitive) or a
decimal literal with optional fraction and exponent; failure is `none`. -/
def pythonFloatParse (s : String) : Option PyFloat :=
  let l := stripPyWs s.data
  let signAndRest : Bool × List Char :=
    match l with
    | '+' :: r => (false, r)
    | '-' :: r => (true, r)
    | r => (false, r)
  let neg := signAndRest.1
  let l1 := signAndRest.2
  let low := l1.map Char.toLower
  if low = "inf".data ∨ low = "infinity".data then some (.inf neg)
  else if low = "nan".data then some .nan
  else
    let mantExp : List Char × Option Int :=
      match splitOnceAt (fun c => c = 'e' || c = 'E') l1 with
      | none => (l1, some 0)
      | some (m, e) =>
          (m,
            match e with
            | '+' :: r => (parseDigits r).map (fun n => (n : Int))
            | '-' :: r => (parseDigits r).map (fun n => -(n : Int))
            | r => (parseDigits r).map (fun n => (n : Int)))
    match mantExp.2 with
    | none => none
    | some expv =>
        let sign : ℚ := if neg then -1 else 1
        match splitOnceAt (fun c => c = '.') mantExp.1 with
        | none =>
            (parseDigits mantExp.1).map
              (fun n => .finite (sign * (n : ℚ) * (10 : ℚ) ^ expv))
        | some (ip, fp) =>
            match ip, fp with
            | [], [] => none
            | [], _ =>
                (parseFracDigits fp).map
                  (fun fv => .finite
                    (sign * ((fv.1 : ℚ) / (10 : ℚ) ^ (fv.2 : ℕ)) * (10 : ℚ) ^ expv))
            | _, [] =>
                (parseDigits ip).map
                  (fun n => .finite (sign * (n : ℚ) * (10 : ℚ) ^ expv))
            | _, _ =>
                match parseDigits ip, parseFracDigits fp with
                | some n, some fv =>
                    some (.finite
                      (sign * ((n : ℚ) + (fv.1 : ℚ) / (10 : ℚ) ^ (fv.2 : ℕ)) *
                        (10 : ℚ) ^ expv))
                | _, _ => none

/-- Result values of `evaluateArgument` (Python returns
`int | float | bool | str`). -/
inductive PyValue where
  | intVal (n : Int)
  | boolVal (b : Bool)
  | floatVal (f : PyFloat)
  | strVal (s : String)
  deriving DecidableEq, Repr

/-- Embedding of the `try:` block of `evaluateArgument`: the type-hint
dispatch, where a failing `int(..)`/`float(..)` raises `ValueError`. -/
def evaluateArgumentTry (argument : String) (typeHint : Option String) :
    Except PyErr PyValue :=
  if typeHint = some "I" ∨ typeHint = some "B" ∨ typeHint = some "S" ∨
      typeHint = some "J" then
    match pythonIntParse argument with
    | some n => .ok (.intVal n)
    | none => .error .valueError
  else if typeHint = some "Z" then
    match pythonIntParse argument with
    | some n => .ok (.boolVal (decide (n ≠ 0)))
    | none => .error .valueError
  else if typeHint = some "F" ∨ typeHint = some "D" then
    match pythonFloatParse argument with
    | some f => .ok (.floatVal f)
    | none => .error .valueError
  else
    .ok (.strVal argument)

/-- Embedding of `evaluateArgument`: the `except ValueError: pass`
fall-through returns the raw argument; other exceptions would propagate
(none can occur for a string argument). -/
def evaluateArgument (argument : String) (typeHint : Option String) :
    Except PyErr PyValue :=
  match evaluateArgumentTry argument typeHint with
  | .ok r => .ok r
  | .error .valueError => .ok (.strVal argument)
  | .error e => .error e

example : pythonIntParse "42" = some 42 := by decide
example : pythonIntParse " -1_0 " = some (-10) := by decide
example : pythonIntParse "1.5" = none := by decide
example : evaluateArgument "not-a-number" (some "I") =
    .ok (.strVal "not-a-number") := rfl
example : evaluateArgument "1" (some "Z") = .ok (.boolVal true) := rfl

/-- C9: for every primitive string value and every type hint, primitive
evaluation applies the hint's conversion — `I`/`B`/`S`/`J` parse the value
as an integer, `Z` takes the boolean of an integer parse, `F`/`D` parse a
float — and for any other hint, a missing hint, or any parse failure the
raw value is returned unchanged; the evaluation always returns a value
(`Except.ok`), never an exception. -/
theorem evaluateArgument_spec (arg : String) (hint : Option String) :
    evaluateArgument arg hint = .ok (
      if hint = some "I" ∨ hint = some "B" ∨ hint = some "S" ∨
          hint = some "J" then
        match pythonIntParse arg with
        | some n => .intVal n
        | none => .strVal arg
      else if hint = some "Z" then
        match pythonIntParse arg with
        | some n => .boolVal (decide (n ≠ 0))
        | none => .strVal arg
      else if hint = some "F" ∨ hint = some "D" then
        match pythonFloatParse arg with
        | some f => .floatVal f
        | none => .strVal arg
      else
        .strVal arg) := by
  unfold evaluateArgument evaluateArgumentTry
  split_ifs with h1 h2 h3
  · cases pythonIntParse arg <;> rfl
  · cases pythonIntParse arg <;> rfl
  · cases pythonFloatParse arg <;> rfl
  · rfl

/-- String form of a Python float.  Python prints the shortest decimal
that round-trips through binary64; that printing is abstracted here (no
claim observes it). -/
def PyFloat.pyStr : PyFloat → String
  | .finite q => toString q.num ++ "/" ++ toString q.den
  | .inf neg => if neg then "-inf" else "inf"
  | .nan => "nan"

/-- Embedding of Python `str(..)` on the values `evaluateArgument`
returns. -/
def PyValue.pyStr : PyValue → String
  | .intVal n => toString n
  | .boolVal b => if b then "True" else "False"
  | .floatVal f => f.pyStr
  | .strVal s => s

/-- Content of one value node: the three `ValueNode` variants.  Child
references are node identifiers. -/
inductive NodeContent where
  | primitive (value : String) (value_type : Option String)
  | methodCall (method : String) (argumentNodes : List Nat)
  | bytecodeOps (strFormat : String) (operands : List Nat) (data : String)

/-- A value-node graph: every identifier carries a content.  Cyclic
graphs (a node reachable from itself) are representable, as in the source
where node fields can be mutated after construction. -/
structure NodeGraph where
  content : Nat → NodeContent

/-- Embedding of `_getChildren` of the three variants. -/
def NodeContent.getChildren : NodeContent → List Nat
  | .primitive _ _ => []
  | .methodCall _ args => args
  | .bytecodeOps _ ops _ => ops

mutual

/-- Embedding of Python `str.format` restricted to the keyword style the
source uses (`{src0}`, `{data}` …): each `{key}` is replaced by its bound
value.  A key with no binding is kept verbatim (Python would raise
`KeyError`; the interpreter always binds every key and no claim observes
the mismatch). -/
def pyFormatAux (vals : List (String × String)) : List Char → List Char
  | [] => []
  | c :: rest =>
      if c = '{' then pyFormatKey vals [] rest
      else c :: pyFormatAux vals rest
termination_by l => l.length

/-- Helper of `pyFormatAux`: collect a replacement-field key up to the
closing brace. -/
def pyFormatKey (vals : List (String × String)) (acc : List Char) :
    List Char → List Char
  | [] => '{' :: acc.reverse
  | c :: rest =>
      if c = '}' then
        match vals.lookup (String.mk acc.reverse) with
        | some v => v.data ++ pyFormatAux vals rest
        | none => '{' :: acc.reverse ++ '}' :: pyFormatAux vals rest
      else pyFormatKey vals (c :: acc) rest
termination_by l => l.length

end

/-- Embedding of `_assembleResolvedString` for the three variants:
a `Primitive` yields `str(evaluateArgument(value, value_type))` when
`evaluateArgs` (the raw value on the unreachable error branch), a
`MethodCall` yields `method(arg0,arg1,…)`, and `BytecodeOps` substitutes
`{srcK}` and `{data}` in its format template. -/
def NodeContent.assembleResolvedString (c : NodeContent)
    (childStrs : List String) (evaluateArgs : Bool) : String :=
  match c with
  | .primitive v t =>
      if evaluateArgs then
        match evaluateArgument v t with
        | .ok r => r.pyStr
        | .error _ => v
      else v
  | .methodCall m _ => m ++ "(" ++ String.intercalate "," childStrs ++ ")"
  | .bytecodeOps fmt _ data =>
      String.mk (pyFormatAux
        (((List.range childStrs.length).map
            (fun i => "src" ++ toString i)).zip childStrs ++ [("data", data)])
        fmt.data)

/-- One resolution state of `iterativeResolve`: the explicit stack of
`(node, childStrs)` pairs and the memoization cache keyed by node
identity.  `resolveLoop` runs the `while stack:` loop for at most `fuel`
iterations; `none` means the loop has not produced a result within
`fuel` iterations (for a diverging input, within any number of
iterations). -/
def resolveLoop (g : NodeGraph) (evaluateArgs : Bool) :
    Nat → List (Nat × List String) → (Nat → Option String) → Option String
  | 0, _, _ => none
  | _ + 1, [], _ => none
  | fuel + 1, (curId, childStrs) :: rest, cache =>
      let children := (g.content curId).getChildren
      if h : childStrs.length < children.length then
        let child := children[childStrs.length]
        match cache child with
        | some cached =>
            resolveLoop g evaluateArgs fuel
              ((curId, childStrs ++ [cached]) :: rest) cache
        | none =>
            resolveLoop g evaluateArgs fuel
              ((child, []) :: (curId, childStrs) :: rest) cache
      else
        let result := (g.content curId).assembleResolvedString childStrs
          evaluateArgs
        let cache2 := fun i => if i = curId then some result else cache i
        match rest with
        | [] => some result
        | (pId, pStrs) :: rrest =>
            resolveLoop g evaluateArgs fuel ((pId, pStrs ++ [result]) :: rrest)
              cache2

/-- Embedding of `iterativeResolve(node, evaluateArgs)` with an explicit
iteration budget: the source's `while` loop has no bound, so the function
diverges exactly when the result is `none` for every `fuel`. -/
def iterativeResolve (g : NodeGraph) (node : Nat) (evaluateArgs : Bool)
    (fuel : Nat) : Option String :=
  resolveLoop g evaluateArgs fuel [(node, [])] (fun _ => none)

/-- C1 failing input: a node whose operand tuple contains the node
itself — the self-cycle the spec attributes to a register re-fed its own
expression during casting. -/
def selfCycleGraph : NodeGraph :=
  ⟨fun _ => .bytecodeOps "casting({src0})" [0] ""⟩

theorem resolveLoop_self_cycle (evaluateArgs : Bool) (fuel : Nat)
    (stack : List (Nat × List String)) (cache : Nat → Option String)
    (hstack : stack ≠ [] ∧ ∀ f ∈ stack, f = (0, []))
    (hcache : cache 0 = none) :
    resolveLoop selfCycleGraph evaluateArgs fuel stack cache = none := by
  induction fuel generalizing stack with
  | zero => rfl
  | succ fuel ih =>
      obtain ⟨hne, hall⟩ := hstack
      match stack, hne with
      | (curId, childStrs) :: rest, _ =>
          have hhead : (curId, childStrs) = ((0 : Nat), ([] : List String)) :=
            hall _ (List.mem_cons_self _ _)
          have hcur : curId = 0 := congrArg Prod.fst hhead
          have hcs : childStrs = [] := congrArg Prod.snd hhead
          subst hcur hcs
          show resolveLoop selfCycleGraph evaluateArgs (fuel + 1)
            ((0, []) :: rest) cache = none
          rw [resolveLoop]
          simp only [selfCycleGraph, NodeContent.getChildren, List.length_nil,
            List.length_cons, Nat.zero_lt_one, dif_pos, List.getElem_cons_zero,
            hcache]
          exact ih ((0, []) :: (0, []) :: rest)
            ⟨List.cons_ne_nil _ _, by
              intro f hf
              rcases List.mem_cons.mp hf with h | hf2
              · exact h
              rcases List.mem_cons.mp hf2 with h | hf3
              · exact h
              · exact hall _ (List.mem_cons_of_mem _ hf3)⟩

/-- C1: on the self-cyclic value-node graph, `iterativeResolve` never
terminates — for every iteration budget the `while` loop is still
running.  No visited-set exists in the code and the string
`<...recursion...>` is never produced; the cycle-safety the specification
describes is absent. -/
theorem iterativeResolve_self_cycle_diverges (evaluateArgs : Bool)
    (fuel : Nat) :
    iterativeResolve selfCycleGraph 0 evaluateArgs fuel = none :=
  resolveLoop_self_cycle evaluateArgs fuel [(0, [])] (fun _ => none)
    ⟨List.cons_ne_nil _ _, by
      intro f hf
      rcases List.mem_cons.mp hf with h | hf2
      · exact h
      · exact absurd hf2 (List.not_mem_nil _)⟩
    rfl

example : iterativeResolve
    ⟨fun i => if i = 0 then .methodCall "f" [1] else .primitive "7" (some "I")⟩
    0 true 10 = some "f(7)" := rfl

/-! ## APK tamper-repair (`quark/core/apkpatcher.py`)

The memory-mapped APK is a fixed-length byte buffer, embedded as
`List Nat` (one `Nat` per byte; genuine images satisfy `ByteImage`, every
byte `< 256`).  `struct.unpack_from`/`struct.pack_into` raise
`struct.error` when the buffer is too short (and `pack_into` writes
nothing in that case); plain subscription raises `IndexError`; slicing
truncates silently.  The source iterates CDH entries with a generator
whose advancement fields are re-read from the (possibly just mutated)
buffer after each consumer step, so the patch loops below fuse the
generator with its consumer in exactly that interleaving. -/

namespace ApkPatcher

/-- A memory-mapped APK image: one `Nat` per byte. -/
abbrev Image := List Nat

/-- Predicate: every byte of the image is a real byte (`< 256`). -/
def ByteImage (img : Image) : Prop := ∀ b ∈ img, b < 256

/-- Embedding of `EOCD_SIGNATURE = b"PK\x05\x06"`. -/
def eocdSignature : List Nat := [0x50, 0x4B, 0x05, 0x06]

/-- Embedding of `CDH_SIGNATURE = b"PK\x01\x02"`. -/
def cdhSignature : List Nat := [0x50, 0x4B, 0x01, 0x02]

/-- Embedding of `LFH_SIGNATURE = b"PK\x03\x04"`. -/
def lfhSignature : List Nat := [0x50, 0x4B, 0x03, 0x04]

/-- Embedding of `VALID_COMPRESSION_METHODS = set(range(0,21)) | set(range(93,100))`. -/
def validCompressionMethod (m : Nat) : Bool :=
  m ≤ 20 || (93 ≤ m && m ≤ 99)

/-- Python slice `img[a:b]` (for `a ≤ b`): truncates silently at the end
of the buffer. -/
def sliceBytes (img : Image) (a b : Nat) : List Nat :=
  (img.drop a).take (b - a)

/-- Embedding of `struct.unpack_from("<H", img, i)`. -/
def readLE16 (img : Image) (i : Nat) : Except PyErr Nat :=
  match img[i]?, img[i + 1]? with
  | some b0, some b1 => .ok (b0 + 256 * b1)
  | _, _ => .error .structError

/-- Embedding of `struct.unpack_from("<I", img, i)`. -/
def readLE32 (img : Image) (i : Nat) : Except PyErr Nat :=
  match img[i]?, img[i + 1]?, img[i + 2]?, img[i + 3]? with
  | some b0, some b1, some b2, some b3 =>
      .ok (b0 + 256 * b1 + 65536 * b2 + 16777216 * b3)
  | _, _, _, _ => .error .structError

/-- Total 16-bit read (missing bytes read as 0), used to state
post-conditions. -/
def readLE16T (img : Image) (i : Nat) : Nat :=
  (img[i]?).getD 0 + 256 * (img[i + 1]?).getD 0

/-- Total 32-bit read (missing bytes read as 0), used to state
post-conditions. -/
def readLE32T (img : Image) (i : Nat) : Nat :=
  (img[i]?).getD 0 + 256 * (img[i + 1]?).getD 0 +
    65536 * (img[i + 2]?).getD 0 + 16777216 * (img[i + 3]?).getD 0

/-- Embedding of `img[i]` (raises `IndexError` past the end). -/
def readByte (img : Image) (i : Nat) : Except PyErr Nat :=
  match img[i]? with
  | some b => .ok b
  | none => .error .indexError

/-- Embedding of `struct.pack_into("<H", img, i, v)`: bounds and range
are checked before anything is written. -/
def writeLE16 (img : Image) (i v : Nat) : Except PyErr Image :=
  if i + 2 ≤ img.length ∧ v < 65536 then
    .ok ((img.set i (v % 256)).set (i + 1) (v / 256 % 256))
  else .error .structError

/-- Embedding of `struct.pack_into("<I", img, i, v)`. -/
def writeLE32 (img : Image) (i v : Nat) : Except PyErr Image :=
  if i + 4 ≤ img.length ∧ v < 4294967296 then
    .ok ((((img.set i (v % 256)).set (i + 1) (v / 256 % 256)).set
      (i + 2) (v / 65536 % 256)).set (i + 3) (v / 16777216 % 256))
  else .error .structError

/-- Embedding of `img[i] = v` (a byte assignment). -/
def writeByte (img : Image) (i v : Nat) : Except PyErr Image :=
  if i < img.length then .ok (img.set i (v % 256)) else .error .indexError

/-- Whether the bytes at position `i` equal the 4-byte pattern `pat`. -/
def matchesSigAt (img : Image) (pat : List Nat) (i : Nat) : Bool :=
  sliceBytes img i (i + pat.length) = pat

/-- Embedding of `img.rfind(pat)`: the highest offset whose bytes match. -/
def rfindSig (img : Image) (pat : List Nat) : Option Nat :=
  ((List.range img.length).filter (fun i => matchesSigAt img pat i)).getLast?

/-- Embedding of `ApkPatcher._find_eocd`: `rfind` of the EOCD signature;
absence raises `ValueError`. -/
def findEocd (img : Image) : Except PyErr Nat :=
  match rfindSig img eocdSignature with
  | some i => .ok i
  | none => .error .valueError

/-- Embedding of `ApkPatcher._parse_eocd`: 16-bit CDH count at
`eocd + 10`, 32-bit CDH start offset at `eocd + 16`. -/
def parseEocd (img : Image) (eocd : Nat) : Except PyErr (Nat × Nat) := do
  let cdhCount ← readLE16 img (eocd + 10)
  let cdhStart ← readLE32 img (eocd + 16)
  return (cdhCount, cdhStart)

/-- One shift-xor round of the reflected CRC-32 polynomial 0xEDB88320. -/
def crc32Round (c : Nat) : Nat :=
  if c % 2 = 1 then Nat.xor (c / 2) 0xEDB88320 else c / 2

/-- Fold one byte into a reflected CRC-32 state. -/
def crc32ProcessByte (c b : Nat) : Nat :=
  crc32Round (crc32Round (crc32Round (crc32Round (crc32Round (crc32Round
    (crc32Round (crc32Round (Nat.xor c (b % 256)))))))))

/-- Embedding of `zlib.crc32(data, seed)`.  The source streams the data
in 64 KiB chunks with a rolling seed; zlib's rolling CRC over
consecutive chunks equals the CRC of their concatenation, so the
embedding takes the whole byte run at once. -/
def crc32 (seed : Nat) (data : List Nat) : Nat :=
  Nat.xor (data.foldl crc32ProcessByte (Nat.xor (seed % 4294967296)
    0xFFFFFFFF)) 0xFFFFFFFF

/-- Result of running `_iter_cdh` with a passive consumer: the yielded
`(offset, signature_valid)` pairs and the exception, if any, that the
generator raised while advancing. -/
structure IterCdhRun where
  yielded : List (Nat × Bool)
  err : Option PyErr
  deriving DecidableEq, Repr

/-- Embedding of `ApkPatcher._iter_cdh` driven to exhaustion by a
consumer that performs no mutation: yields `(cursor, signature_valid)`
for `cdh_count` iterations, then advances the cursor by
`46 + filename_len + extra_len + comment_len` read at `+28`, `+30`,
`+32`. -/
def iterCdhRun (img : Image) : Nat → Nat → IterCdhRun
  | 0, _ => ⟨[], none⟩
  | n + 1, cur =>
      let isValid := matchesSigAt img cdhSignature cur
      match readLE16 img (cur + 28), readLE16 img (cur + 30),
          readLE16 img (cur + 32) with
      | .ok fl, .ok el, .ok cl =>
          let r := iterCdhRun img n (cur + 46 + fl + el + cl)
          ⟨(cur, isValid) :: r.yielded, r.err⟩
      | _, _, _ => ⟨[(cur, isValid)], some .structError⟩

end ApkPatcher

namespace ApkPatcher

/-- Scan record of one CDH entry visited by
`_patch_invalid_compression_method`: the cursor, the signature check, and
the compression method and LFH offset read there.  An entry is recorded
once both reads succeed (before that point nothing has been written for
it). -/
structure CompEntry where
  cursor : Nat
  sigValid : Bool
  method : Nat
  lfh : Nat
  deriving DecidableEq, Repr

/-- Result of `_patch_invalid_compression_method`: the mutated image, the
`isPatched` flag, the scan trace, and the exception (if one escaped). -/
structure CompRun where
  image : Image
  isPatched : Bool
  trace : List CompEntry
  err : Option PyErr
  deriving DecidableEq, Repr

/-- Generator advancement of `_iter_cdh` as used inside the patch loops:
read the three little-endian length fields at `+28`, `+30`, `+32` of the
current (possibly just mutated) image and move the cursor past the
header. -/
def advanceOffset (img : Image) (cur : Nat) : Except PyErr Nat :=
  match readLE16 img (cur + 28), readLE16 img (cur + 30),
      readLE16 img (cur + 32) with
  | .ok fl, .ok el, .ok cl => .ok (cur + 46 + fl + el + cl)
  | _, _, _ => .error .structError

/-- Outcome of the loop body of `_patch_invalid_compression_method` on
one CDH entry. -/
inductive CompStep where
  | readFail (e : PyErr)
  | done (entry : CompEntry) (img : Image) (patched : Bool)
  | failed (entry : CompEntry) (img : Image) (patched : Bool) (e : PyErr)
  deriving DecidableEq, Repr

/-- Loop body of `_patch_invalid_compression_method` for the entry at
`cur`: read the method at `+10` and the LFH offset at `+42`; skip valid
methods; otherwise write method 0 at `+10` (only then is `isPatched`
set), copy the uncompressed size `+24` over the compressed size `+20`,
and write method 0 at `LFH+8` and the uncompressed size at `LFH+18`.
The LFH-signature check in the source only logs, so it has no effect
here. -/
def compBody (img : Image) (cur : Nat) : CompStep :=
  let sigOk := matchesSigAt img cdhSignature cur
  match readLE16 img (cur + 10), readLE32 img (cur + 42) with
  | .ok method, .ok lfh =>
      let entry : CompEntry := ⟨cur, sigOk, method, lfh⟩
      if validCompressionMethod method then .done entry img false
      else
        match writeLE16 img (cur + 10) 0 with
        | .error e => .failed entry img false e
        | .ok img1 =>
            match readLE32 img1 (cur + 24) with
            | .error e => .failed entry img1 true e
            | .ok usize =>
                match writeLE32 img1 (cur + 20) usize with
                | .error e => .failed entry img1 true e
                | .ok img2 =>
                    match writeLE16 img2 (lfh + 8) 0 with
                    | .error e => .failed entry img2 true e
                    | .ok img3 =>
                        match writeLE32 img3 (lfh + 18) usize with
                        | .error e => .failed entry img3 true e
                        | .ok img4 => .done entry img4 true
  | _, _ => .readFail .structError

/-- Embedding of the `for current_offset, is_valid_signature in
_iter_cdh(..)` loop of `_patch_invalid_compression_method`, fused with
the generator: per iteration the body runs on the current image, then the
generator advances on the mutated image. -/
def patchCompLoop (img : Image) : Nat → Nat → Bool → CompRun
  | 0, _, isP => ⟨img, isP, [], none⟩
  | n + 1, cur, isP =>
      match compBody img cur with
      | .readFail e => ⟨img, isP, [], some e⟩
      | .failed entry img1 p e => ⟨img1, isP || p, [entry], some e⟩
      | .done entry img1 p =>
          match advanceOffset img1 cur with
          | .error e => ⟨img1, isP || p, [entry], some e⟩
          | .ok next =>
              let r := patchCompLoop img1 n next (isP || p)
              ⟨r.image, r.isPatched, entry :: r.trace, r.err⟩

/-- Embedding of `ApkPatcher._patch_invalid_compression_method`. -/
def patchInvalidCompressionMethod (img : Image) (cdhCount cdhStart : Nat) :
    CompRun :=
  patchCompLoop img cdhCount cdhStart false

/-- Embedding of `"AndroidManifest.xml".encode("utf-8")`. -/
def manifestFileName : List Nat :=
  "AndroidManifest.xml".data.map Char.toNat

/-- The entry `_patch_manifest_signature` selected for patching: its CDH
cursor, LFH offset, data offset and uncompressed size as scanned. -/
structure ManifestSel where
  cursor : Nat
  lfh : Nat
  dataOffset : Nat
  usize : Nat
  deriving DecidableEq, Repr

/-- Result of `_patch_manifest_signature`. -/
structure ManifestRun where
  image : Image
  isPatched : Bool
  sel : Option ManifestSel
  err : Option PyErr
  deriving DecidableEq, Repr

/-- Outcome of the loop body of `_patch_manifest_signature` on one CDH
entry. -/
inductive ManifestStep where
  | skip
  | readFail (e : PyErr)
  | breakClean
  | patched (sel : ManifestSel) (img : Image)
  | failed (sel : ManifestSel) (img : Image) (patched : Bool) (e : PyErr)
  deriving DecidableEq, Repr

/-- Loop body of `_patch_manifest_signature` for the entry at `cur`:
compare 19 filename bytes at `+46`; require method 0 at `+10`; read the
LFH offset at `+42` and uncompressed size at `+24` (the LFH-signature and
zero-size checks only log); compute the data offset
`LFH + 30 + lfh_filename_len + lfh_extra_len`; if the first data byte is
already 3, break; otherwise write 3 there, recompute the CRC-32 of the
stored bytes, and write it at `CDH+16` and `LFH+14`. -/
def manifestBody (img : Image) (cur : Nat) : ManifestStep :=
  if sliceBytes img (cur + 46) (cur + 46 + 19) ≠ manifestFileName then .skip
  else
    match readLE16 img (cur + 10) with
    | .error e => .readFail e
    | .ok method =>
        if method ≠ 0 then .skip
        else
          match readLE32 img (cur + 42) with
          | .error e => .readFail e
          | .ok lfh =>
              match readLE32 img (cur + 24) with
              | .error e => .readFail e
              | .ok usize =>
                  match readLE16 img (lfh + 26), readLE16 img (lfh + 28) with
                  | .ok lfl, .ok lel =>
                      let dataOff := lfh + 30 + lfl + lel
                      match readByte img dataOff with
                      | .error e => .readFail e
                      | .ok b =>
                          if b = 3 then .breakClean
                          else
                            let sel : ManifestSel := ⟨cur, lfh, dataOff, usize⟩
                            match writeByte img dataOff 3 with
                            | .error e => .failed sel img false e
                            | .ok img1 =>
                                let newCrc := crc32 0
                                  (sliceBytes img1 dataOff (dataOff + usize))
                                match writeLE32 img1 (cur + 16) newCrc with
                                | .error e => .failed sel img1 true e
                                | .ok img2 =>
                                    match writeLE32 img2 (lfh + 14) newCrc with
                                    | .error e => .failed sel img2 true e
                                    | .ok img3 => .patched sel img3
                  | _, _ => .readFail .structError

/-- Embedding of the CDH loop of `_patch_manifest_signature`, fused with
the generator; the loop stops at the first processed manifest entry
(`break`), so at most one entry is ever patched. -/
def patchManifestLoop (img : Image) : Nat → Nat → ManifestRun
  | 0, _ => ⟨img, false, none, none⟩
  | n + 1, cur =>
      match manifestBody img cur with
      | .skip =>
          match advanceOffset img cur with
          | .ok next => patchManifestLoop img n next
          | .error e => ⟨img, false, none, some e⟩
      | .readFail e => ⟨img, false, none, some e⟩
      | .breakClean => ⟨img, false, none, none⟩
      | .patched sel img1 => ⟨img1, true, some sel, none⟩
      | .failed sel img1 p e => ⟨img1, p, some sel, some e⟩

theorem patchCompLoop_succ (img : Image) (n cur : Nat) (isP : Bool) :
    patchCompLoop img (n + 1) cur isP =
      (match compBody img cur with
      | .readFail e => ⟨img, isP, [], some e⟩
      | .failed entry img1 p e => ⟨img1, isP || p, [entry], some e⟩
      | .done entry img1 p =>
          match advanceOffset img1 cur with
          | .error e => ⟨img1, isP || p, [entry], some e⟩
          | .ok next =>
              let r := patchCompLoop img1 n next (isP || p)
              ⟨r.image, r.isPatched, entry :: r.trace, r.err⟩) := rfl

theorem patchManifestLoop_zero (img : Image) (cur : Nat) :
    patchManifestLoop img 0 cur = ⟨img, false, none, none⟩ := rfl

theorem patchManifestLoop_succ (img : Image) (n cur : Nat) :
    patchManifestLoop img (n + 1) cur =
      (match manifestBody img cur with
      | .skip =>
          match advanceOffset img cur with
          | .ok next => patchManifestLoop img n next
          | .error e => ⟨img, false, none, some e⟩
      | .readFail e => ⟨img, false, none, some e⟩
      | .breakClean => ⟨img, false, none, none⟩
      | .patched sel img1 => ⟨img1, true, some sel, none⟩
      | .failed sel img1 p e => ⟨img1, p, some sel, some e⟩) := rfl

/-- Embedding of `ApkPatcher._patch_manifest_signature`. -/
def patchManifestSignature (img : Image) (cdhCount cdhStart : Nat) :
    ManifestRun :=
  patchManifestLoop img cdhCount cdhStart

/-- Embedding of `ApkPatcher.patch`: find and parse the EOCD, run the two
sub-patches, and return the disjunction of their flags; the
`except BaseException` handler turns any escaped exception into a
`False` result, keeping whatever in-place mutations already happened. -/
def patch (img : Image) : Bool × Image :=
  match findEocd img with
  | .error _ => (false, img)
  | .ok eocd =>
      match parseEocd img eocd with
      | .error _ => (false, img)
      | .ok (cdhCount, cdhStart) =>
          let c := patchInvalidCompressionMethod img cdhCount cdhStart
          match c.err with
          | some _ => (false, c.image)
          | none =>
              let m := patchManifestSignature c.image cdhCount cdhStart
              match m.err with
              | some _ => (false, m.image)
              | none => (c.isPatched || m.isPatched, m.image)

end ApkPatcher

namespace ApkPatcher

theorem readLE16_ok_eq {img : Image} {i v : Nat}
    (h : readLE16 img i = .ok v) : v = readLE16T img i := by
  unfold readLE16 at h
  unfold readLE16T
  cases h0 : img[i]? with
  | none => rw [h0] at h; exact absurd h (by simp)
  | some b0 =>
      cases h1 : img[i + 1]? with
      | none => rw [h0, h1] at h; exact absurd h (by simp)
      | some b1 =>
          rw [h0, h1] at h
          cases h
          rfl

theorem readLE32_ok_eq {img : Image} {i v : Nat}
    (h : readLE32 img i = .ok v) : v = readLE32T img i := by
  unfold readLE32 at h
  unfold readLE32T
  cases h0 : img[i]? with
  | none => rw [h0] at h; exact absurd h (by simp)
  | some b0 =>
  cases h1 : img[i + 1]? with
  | none => rw [h0, h1] at h; exact absurd h (by simp)
  | some b1 =>
  cases h2 : img[i + 2]? with
  | none => rw [h0, h1, h2] at h; exact absurd h (by simp)
  | some b2 =>
  cases h3 : img[i + 3]? with
  | none => rw [h0, h1, h2, h3] at h; exact absurd h (by simp)
  | some b3 =>
      rw [h0, h1, h2, h3] at h
      cases h
      rfl

theorem readLE16T_congr {img img' : Image} {i : Nat}
    (h0 : img'[i]? = img[i]?) (h1 : img'[i + 1]? = img[i + 1]?) :
    readLE16T img' i = readLE16T img i := by
  unfold readLE16T
  rw [h0, h1]

theorem readLE32T_congr {img img' : Image} {i : Nat}
    (h0 : img'[i]? = img[i]?) (h1 : img'[i + 1]? = img[i + 1]?)
    (h2 : img'[i + 2]? = img[i + 2]?) (h3 : img'[i + 3]? = img[i + 3]?) :
    readLE32T img' i = readLE32T img i := by
  unfold readLE32T
  rw [h0, h1, h2, h3]

theorem writeByte_spec {img : Image} {i v : Nat} {img' : Image}
    (h : writeByte img i v = .ok img') :
    img'.length = img.length ∧ i < img.length ∧
      img'[i]? = some (v % 256) ∧
      ∀ j, j ≠ i → img'[j]? = img[j]? := by
  unfold writeByte at h
  split at h
  · cases h
    refine ⟨List.length_set .., by omega, ?_, ?_⟩
    · exact List.getElem?_set_eq_of_lt _ (by omega)
    · intro j hj
      exact List.getElem?_set_ne (by omega)
  · exact absurd h (by simp)

theorem writeLE16_spec {img : Image} {i v : Nat} {img' : Image}
    (h : writeLE16 img i v = .ok img') :
    img'.length = img.length ∧ i + 2 ≤ img.length ∧ v < 65536 ∧
      img'[i]? = some (v % 256) ∧ img'[i + 1]? = some (v / 256 % 256) ∧
      ∀ j, j ≠ i → j ≠ i + 1 → img'[j]? = img[j]? := by
  unfold writeLE16 at h
  split at h
  · rename_i hcond
    cases h
    refine ⟨by simp [List.length_set], hcond.1, hcond.2, ?_, ?_, ?_⟩
    · rw [List.getElem?_set_ne (by omega)]
      exact List.getElem?_set_eq_of_lt _ (by omega)
    · exact List.getElem?_set_eq_of_lt _ (by simp [List.length_set]; omega)
    · intro j hj0 hj1
      rw [List.getElem?_set_ne (by omega), List.getElem?_set_ne (by omega)]
  · exact absurd h (by simp)

theorem writeLE32_spec {img : Image} {i v : Nat} {img' : Image}
    (h : writeLE32 img i v = .ok img') :
    img'.length = img.length ∧ i + 4 ≤ img.length ∧ v < 4294967296 ∧
      img'[i]? = some (v % 256) ∧ img'[i + 1]? = some (v / 256 % 256) ∧
      img'[i + 2]? = some (v / 65536 % 256) ∧
      img'[i + 3]? = some (v / 16777216 % 256) ∧
      ∀ j, j ≠ i → j ≠ i + 1 → j ≠ i + 2 → j ≠ i + 3 →
        img'[j]? = img[j]? := by
  unfold writeLE32 at h
  split at h
  · rename_i hcond
    cases h
    have hlen : ∀ k a, (img.set k a).length = img.length := by
      intro k a; simp [List.length_set]
    refine ⟨by simp [List.length_set], hcond.1, hcond.2, ?_, ?_, ?_, ?_, ?_⟩
    · rw [List.getElem?_set_ne (by omega), List.getElem?_set_ne (by omega),
        List.getElem?_set_ne (by omega)]
      exact List.getElem?_set_eq_of_lt _ (by omega)
    · rw [List.getElem?_set_ne (by omega), List.getElem?_set_ne (by omega)]
      exact List.getElem?_set_eq_of_lt _ (by simp [List.length_set]; omega)
    · rw [List.getElem?_set_ne (by omega)]
      exact List.getElem?_set_eq_of_lt _ (by simp [List.length_set]; omega)
    · exact List.getElem?_set_eq_of_lt _ (by simp [List.length_set]; omega)
    · intro j h0 h1 h2 h3
      rw [List.getElem?_set_ne (by omega), List.getElem?_set_ne (by omega),
        List.getElem?_set_ne (by omega), List.getElem?_set_ne (by omega)]
  · exact absurd h (by simp)

theorem readLE16T_writeLE16 {img : Image} {i v : Nat} {img' : Image}
    (h : writeLE16 img i v = .ok img') : readLE16T img' i = v := by
  obtain ⟨_, _, hv, h0, h1, _⟩ := writeLE16_spec h
  unfold readLE16T
  rw [h0, h1]
  simp only [Option.getD_some]
  omega

theorem readLE32T_writeLE32 {img : Image} {i v : Nat} {img' : Image}
    (h : writeLE32 img i v = .ok img') : readLE32T img' i = v := by
  obtain ⟨_, _, hv, h0, h1, h2, h3, _⟩ := writeLE32_spec h
  unfold readLE32T
  rw [h0, h1, h2, h3]
  simp only [Option.getD_some]
  omega

theorem byteImage_set {img : Image} (hb : ByteImage img) (i v : Nat) :
    ByteImage (img.set i (v % 256)) := by
  intro b hbmem
  rcases List.mem_or_eq_of_mem_set hbmem with hmem | heq
  · exact hb b hmem
  · omega

theorem byteImage_writeByte {img : Image} {i v : Nat} {img' : Image}
    (hb : ByteImage img) (h : writeByte img i v = .ok img') :
    ByteImage img' := by
  unfold writeByte at h
  split at h
  · cases h; exact byteImage_set hb i v
  · exact absurd h (by simp)

theorem byteImage_writeLE16 {img : Image} {i v : Nat} {img' : Image}
    (hb : ByteImage img) (h : writeLE16 img i v = .ok img') :
    ByteImage img' := by
  unfold writeLE16 at h
  split at h
  · cases h; exact byteImage_set (byteImage_set hb i v) (i + 1) (v / 256)
  · exact absurd h (by simp)

theorem byteImage_writeLE32 {img : Image} {i v : Nat} {img' : Image}
    (hb : ByteImage img) (h : writeLE32 img i v = .ok img') :
    ByteImage img' := by
  unfold writeLE32 at h
  split at h
  · cases h
    exact byteImage_set (byteImage_set (byteImage_set
      (byteImage_set hb i v) (i + 1) (v / 256)) (i + 2) (v / 65536))
      (i + 3) (v / 16777216)
  · exact absurd h (by simp)

theorem readLE32T_lt {img : Image} (hb : ByteImage img) (i : Nat) :
    readLE32T img i < 4294967296 := by
  unfold readLE32T
  have hbyte : ∀ j : Nat, (img[j]?).getD 0 < 256 := by
    intro j
    cases hj : img[j]? with
    | none => simp
    | some b => simpa using hb b (List.getElem?_mem hj)
  have h0 := hbyte i
  have h1 := hbyte (i + 1)
  have h2 := hbyte (i + 2)
  have h3 := hbyte (i + 3)
  omega

theorem sliceBytes_congr {img img' : Image} {a b : Nat}
    (h : ∀ j, a ≤ j → j < b → img'[j]? = img[j]?) :
    sliceBytes img' a b = sliceBytes img a b := by
  unfold sliceBytes
  apply List.ext_getElem?
  intro k
  rw [List.getElem?_take, List.getElem?_take]
  split
  · rw [List.getElem?_drop, List.getElem?_drop]
    rename_i hk
    exact h (a + k) (by omega) (by omega)
  · rfl

theorem matchesSigAt_congr {img img' : Image} {pat : List Nat} {i : Nat}
    (h : ∀ j, i ≤ j → j < i + pat.length → img'[j]? = img[j]?) :
    matchesSigAt img' pat i = matchesSigAt img pat i := by
  unfold matchesSigAt
  rw [sliceBytes_congr h]

end ApkPatcher

namespace ApkPatcher

/-- Spec-side cursor sequence of the central-directory walk, written from
the claim: starting at `start`, each next cursor adds `46` plus the three
little-endian 16-bit fields at offsets `+28`, `+30`, `+32`. -/
def cursorSeq (img : Image) : Nat → Nat → List Nat
  | 0, _ => []
  | n + 1, cur =>
      cur :: cursorSeq img n
        (cur + 46 + readLE16T img (cur + 28) + readLE16T img (cur + 30) +
          readLE16T img (cur + 32))

theorem cursorSeq_length (img : Image) (n cur : Nat) :
    (cursorSeq img n cur).length = n := by
  induction n generalizing cur with
  | zero => rfl
  | succ n ih => simp [cursorSeq, ih]

end ApkPatcher

/-- C8 counterexample: on the empty image with `cdh_count = 2`, the
generator yields only one pair (cursor 0, signature invalid) and then
raises `struct.error` while reading the advancement fields, refuting
"yields exactly `cdh_count` pairs for every image". -/
theorem iterCdh_short_image_underyields :
    (ApkPatcher.iterCdhRun [] 2 0).yielded = [(0, false)] ∧
      (ApkPatcher.iterCdhRun [] 2 0).yielded.length ≠ 2 ∧
      (ApkPatcher.iterCdhRun [] 2 0).err = some .structError := by
  refine ⟨rfl, ?_, rfl⟩
  decide

/-- C8 (amended): whenever `_iter_cdh` runs to completion without a read
error, it yields exactly `cdh_count` pairs; the cursors follow the
claimed recurrence (first cursor `cdh_start_offset`, each next cursor 46
plus the little-endian 16-bit fields at `+28`, `+30`, `+32` further), and
each yielded boolean is true exactly when the 4 bytes at its cursor equal
the CDH signature — a pair is yielded whether or not the signature
matches. -/
theorem iterCdh_spec (img : ApkPatcher.Image) (count start : Nat)
    (herr : (ApkPatcher.iterCdhRun img count start).err = none) :
    (ApkPatcher.iterCdhRun img count start).yielded =
        (ApkPatcher.cursorSeq img count start).map
          (fun c => (c, ApkPatcher.matchesSigAt img ApkPatcher.cdhSignature c)) ∧
      (ApkPatcher.cursorSeq img count start).length = count := by
  refine ⟨?_, ApkPatcher.cursorSeq_length img count start⟩
  induction count generalizing start with
  | zero => rfl
  | succ n ih =>
      rw [ApkPatcher.iterCdhRun] at herr ⊢
      cases h28 : ApkPatcher.readLE16 img (start + 28) with
      | error e => rw [h28] at herr; exact absurd herr (by simp)
      | ok fl =>
      cases h30 : ApkPatcher.readLE16 img (start + 30) with
      | error e => rw [h28, h30] at herr; exact absurd herr (by simp)
      | ok el =>
      cases h32 : ApkPatcher.readLE16 img (start + 32) with
      | error e => rw [h28, h30, h32] at herr; exact absurd herr (by simp)
      | ok cl =>
          rw [h28, h30, h32] at herr
          simp only at herr ⊢
          rw [ApkPatcher.cursorSeq, List.map_cons]
          rw [← ApkPatcher.readLE16_ok_eq h28, ← ApkPatcher.readLE16_ok_eq h30,
            ← ApkPatcher.readLE16_ok_eq h32]
          exact congrArg _ (ih _ herr)

/-- Concrete well-formed single-entry ZIP image used as witness input: a
5-byte-named STORED-layout entry whose compression method field holds the
invalid value 0xFFFF, with consistent LFH, CDH and EOCD records. -/
def sampleZip : ApkPatcher.Image :=
  [80,75,3,4,20,0,0,0,255,255,0,0,0,0,0,0,0,0,10,0,0,0,42,0,0,0,5,0,0,0,65,
   46,116,120,116,0,0,0,0,0,0,0,0,0,0,0,0,0,0,0,0,0,0,0,0,0,0,0,0,0,0,0,0,0,
   0,0,0,0,0,0,0,0,0,0,0,0,0,80,75,1,2,20,0,20,0,0,0,255,255,0,0,0,0,0,0,0,
   0,10,0,0,0,42,0,0,0,5,0,0,0,0,0,0,0,0,0,0,0,0,0,0,0,0,0,65,46,116,120,
   116,80,75,5,6,0,0,0,0,1,0,1,0,51,0,0,0,77,0,0,0,0,0]

set_option maxRecDepth 10000 in
/-- C8 witness: the amended iteration law applied to a concrete
well-formed single-entry ZIP image. -/
theorem iterCdh_spec_witness :
    (ApkPatcher.iterCdhRun sampleZip 1 77).yielded = [(77, true)] := by
  rw [(iterCdh_spec sampleZip 1 77 (by decide)).1]
  decide

/-- C6: `ApkPatcher.patch` is total on every input image (in the
embedding every Python exception is an explicit `Except` value and the
outermost handler catches them all): when the EOCD cannot be found or its
fields cannot be read, the image is returned unmodified with result
`false`; when a sub-patch raises, the partially patched image is returned
with result `false`; and when both sub-patches complete, the result is
the disjunction of their flags. -/
theorem patch_error_handling (img : ApkPatcher.Image) :
    (∀ e, ApkPatcher.findEocd img = .error e →
      ApkPatcher.patch img = (false, img)) ∧
    (∀ eocd ec, ApkPatcher.findEocd img = .ok eocd →
      ApkPatcher.parseEocd img eocd = .error ec →
      ApkPatcher.patch img = (false, img)) ∧
    (∀ eocd count start, ApkPatcher.findEocd img = .ok eocd →
      ApkPatcher.parseEocd img eocd = .ok (count, start) →
      ((ApkPatcher.patchInvalidCompressionMethod img count start).err.isSome →
        ApkPatcher.patch img =
          (false, (ApkPatcher.patchInvalidCompressionMethod img count start).image)) ∧
      ((ApkPatcher.patchInvalidCompressionMethod img count start).err = none →
        ((ApkPatcher.patchManifestSignature
            (ApkPatcher.patchInvalidCompressionMethod img count start).image
            count start).err.isSome →
          ApkPatcher.patch img =
            (false, (ApkPatcher.patchManifestSignature
              (ApkPatcher.patchInvalidCompressionMethod img count start).image
              count start).image)) ∧
        ((ApkPatcher.patchManifestSignature
            (ApkPatcher.patchInvalidCompressionMethod img count start).image
            count start).err = none →
          ApkPatcher.patch img =
            ((ApkPatcher.patchInvalidCompressionMethod img count start).isPatched ||
              (ApkPatcher.patchManifestSignature
                (ApkPatcher.patchInvalidCompressionMethod img count start).image
                count start).isPatched,
             (ApkPatcher.patchManifestSignature
               (ApkPatcher.patchInvalidCompressionMethod img count start).image
               count start).image)))) := by
  refine ⟨?_, ?_, ?_⟩
  · intro e he
    simp only [ApkPatcher.patch, he]
  · intro eocd ec h1 h2
    simp only [ApkPatcher.patch, h1, h2]
  · intro eocd count start h1 h2
    refine ⟨?_, ?_⟩
    · intro hc
      cases hce : (ApkPatcher.patchInvalidCompressionMethod img count start).err with
      | none => rw [hce] at hc; exact absurd hc (by simp)
      | some e => simp only [ApkPatcher.patch, h1, h2, hce]
    · intro hc
      refine ⟨?_, ?_⟩
      · intro hm
        cases hme : (ApkPatcher.patchManifestSignature
            (ApkPatcher.patchInvalidCompressionMethod img count start).image
            count start).err with
        | none => rw [hme] at hm; exact absurd hm (by simp)
        | some e => simp only [ApkPatcher.patch, h1, h2, hc, hme]
      · intro hm
        simp only [ApkPatcher.patch, h1, h2, hc, hm]

set_option maxRecDepth 40000 in
/-- C6 witness: on the empty image the EOCD is absent and `patch`
reports no patch with the image unchanged; on a concrete well-formed
image both sub-patches complete and `patch` returns their disjunction. -/
theorem patch_error_handling_witness :
    ApkPatcher.patch [] = (false, []) ∧
      ApkPatcher.patch sampleZip =
        ((ApkPatcher.patchInvalidCompressionMethod sampleZip 1 77).isPatched ||
          (ApkPatcher.patchManifestSignature
            (ApkPatcher.patchInvalidCompressionMethod sampleZip 1 77).image
            1 77).isPatched,
         (ApkPatcher.patchManifestSignature
           (ApkPatcher.patchInvalidCompressionMethod sampleZip 1 77).image
           1 77).image) :=
  ⟨(patch_error_handling []).1 .valueError (by decide),
   ((patch_error_handling sampleZip).2.2 128 1 77 (by decide) (by decide)).2
     (by decide) |>.2 (by decide)⟩

namespace ApkPatcher

/-- Byte offsets `_patch_invalid_compression_method` may write for one
scanned entry: nothing when the scanned method is valid; otherwise the
method and compressed-size fields of the CDH and of the referenced
LFH. -/
def compWriteOffsets (e : CompEntry) : List Nat :=
  if validCompressionMethod e.method then []
  else [e.cursor + 10, e.cursor + 11, e.cursor + 20, e.cursor + 21,
        e.cursor + 22, e.cursor + 23, e.lfh + 8, e.lfh + 9,
        e.lfh + 18, e.lfh + 19, e.lfh + 20, e.lfh + 21]

/-- Byte offsets `_patch_manifest_signature` may write: nothing when no
entry was selected; otherwise the selected entry's first data byte and
the CRC fields of its CDH and LFH. -/
def manifestWriteOffsets : Option ManifestSel → List Nat
  | none => []
  | some sel =>
      [sel.dataOffset, sel.cursor + 16, sel.cursor + 17, sel.cursor + 18,
       sel.cursor + 19, sel.lfh + 14, sel.lfh + 15, sel.lfh + 16,
       sel.lfh + 17]

/-- `Framed img img' offs`: `img'` has the same length as `img` and
agrees with it on every byte outside `offs`. -/
def Framed (img img' : Image) (offs : List Nat) : Prop :=
  img'.length = img.length ∧ ∀ j, j ∉ offs → img'[j]? = img[j]?

theorem framed_rfl (img : Image) (offs : List Nat) : Framed img img offs :=
  ⟨rfl, fun _ _ => rfl⟩

theorem framed_mono {img img' : Image} {offs offs' : List Nat}
    (h : Framed img img' offs) (hsub : ∀ j ∈ offs, j ∈ offs') :
    Framed img img' offs' :=
  ⟨h.1, fun j hj => h.2 j (fun hmem => hj (hsub j hmem))⟩

theorem framed_trans {img img1 img2 : Image} {o1 o2 : List Nat}
    (h1 : Framed img img1 o1) (h2 : Framed img1 img2 o2) :
    Framed img img2 (o1 ++ o2) :=
  ⟨h2.1.trans h1.1, fun j hj =>
    (h2.2 j (fun hm => hj (List.mem_append_right _ hm))).trans
      (h1.2 j (fun hm => hj (List.mem_append_left _ hm)))⟩

theorem framed_writeByte {img : Image} {i v : Nat} {img' : Image}
    (h : writeByte img i v = .ok img') : Framed img img' [i] := by
  obtain ⟨hlen, _, _, hother⟩ := writeByte_spec h
  exact ⟨hlen, fun j hj => hother j (by simp at hj; omega)⟩

theorem framed_writeLE16 {img : Image} {i v : Nat} {img' : Image}
    (h : writeLE16 img i v = .ok img') : Framed img img' [i, i + 1] := by
  obtain ⟨hlen, _, _, _, _, hother⟩ := writeLE16_spec h
  refine ⟨hlen, fun j hj => ?_⟩
  simp only [List.mem_cons, List.not_mem_nil, or_false, not_or] at hj
  exact hother j hj.1 hj.2

theorem framed_writeLE32 {img : Image} {i v : Nat} {img' : Image}
    (h : writeLE32 img i v = .ok img') :
    Framed img img' [i, i + 1, i + 2, i + 3] := by
  obtain ⟨hlen, _, _, _, _, _, _, hother⟩ := writeLE32_spec h
  refine ⟨hlen, fun j hj => ?_⟩
  simp only [List.mem_cons, List.not_mem_nil, or_false, not_or] at hj
  exact hother j hj.1 hj.2.1 hj.2.2.1 hj.2.2.2

theorem compBody_writes {img : Image} {cur : Nat} {entry : CompEntry}
    {img1 : Image}
    (h : (∃ p, compBody img cur = .done entry img1 p) ∨
      (∃ p e, compBody img cur = .failed entry img1 p e)) :
    Framed img img1 (compWriteOffsets entry) := by
  have hgoal : ∀ st, st = compBody img cur →
      ((∃ p, st = .done entry img1 p) ∨
        (∃ p e, st = .failed entry img1 p e)) →
      Framed img img1 (compWriteOffsets entry) := by
    intro st hst hcase
    unfold compBody at hst
    cases h10 : readLE16 img (cur + 10) with
    | error e =>
        rw [h10] at hst
        simp only at hst
        subst hst
        rcases hcase with ⟨p, hc⟩ | ⟨p, e', hc⟩ <;> exact absurd hc (by simp)
    | ok method =>
    cases h42 : readLE32 img (cur + 42) with
    | error e =>
        rw [h10, h42] at hst
        simp only at hst
        subst hst
        rcases hcase with ⟨p, hc⟩ | ⟨p, e', hc⟩ <;> exact absurd hc (by simp)
    | ok lfh =>
        rw [h10, h42] at hst
        simp only at hst
        by_cases hval : validCompressionMethod method
        · rw [if_pos hval] at hst
          subst hst
          rcases hcase with ⟨p, hc⟩ | ⟨p, e', hc⟩
          · injection hc with he hi hp
            subst he hi
            exact framed_rfl _ _
          · exact absurd hc (by simp)
        · rw [if_neg hval] at hst
          cases hw1 : writeLE16 img (cur + 10) 0 with
          | error e =>
              rw [hw1] at hst
              simp only at hst
              subst hst
              rcases hcase with ⟨p, hc⟩ | ⟨p, e', hc⟩
              · exact absurd hc (by simp)
              · injection hc with he hi hp hee
                subst he hi
                exact framed_rfl _ _
          | ok imgA =>
              rw [hw1] at hst
              simp only at hst
              have hfA : Framed img imgA [cur + 10, cur + 10 + 1] :=
                framed_writeLE16 hw1
              cases hr24 : readLE32 imgA (cur + 24) with
              | error e =>
                  rw [hr24] at hst
                  simp only at hst
                  subst hst
                  rcases hcase with ⟨p, hc⟩ | ⟨p, e', hc⟩
                  · exact absurd hc (by simp)
                  · injection hc with he hi hp hee
                    subst he hi
                    refine framed_mono hfA ?_
                    intro j hj
                    simp only [compWriteOffsets, if_neg hval]
                    simp at hj ⊢
                    omega
              | ok usize =>
                  rw [hr24] at hst
                  simp only at hst
                  cases hw2 : writeLE32 imgA (cur + 20) usize with
                  | error e =>
                      rw [hw2] at hst
                      simp only at hst
                      subst hst
                      rcases hcase with ⟨p, hc⟩ | ⟨p, e', hc⟩
                      · exact absurd hc (by simp)
                      · injection hc with he hi hp hee
                        subst he hi
                        refine framed_mono hfA ?_
                        intro j hj
                        simp only [compWriteOffsets, if_neg hval]
                        simp at hj ⊢
                        omega
                  | ok imgB =>
                      rw [hw2] at hst
                      simp only at hst
                      have hfB : Framed img imgB _ :=
                        framed_trans hfA (framed_writeLE32 hw2)
                      cases hw3 : writeLE16 imgB (lfh + 8) 0 with
                      | error e =>
                          rw [hw3] at hst
                          simp only at hst
                          subst hst
                          rcases hcase with ⟨p, hc⟩ | ⟨p, e', hc⟩
                          · exact absurd hc (by simp)
                          · injection hc with he hi hp hee
                            subst he hi
                            refine framed_mono hfB ?_
                            intro j hj
                            simp only [compWriteOffsets, if_neg hval]
                            simp at hj ⊢
                            omega
                      | ok imgC =>
                          rw [hw3] at hst
                          simp only at hst
                          have hfC : Framed img imgC _ :=
                            framed_trans hfB (framed_writeLE16 hw3)
                          cases hw4 : writeLE32 imgC (lfh + 18) usize with
                          | error e =>
                              rw [hw4] at hst
                              simp only at hst
                              subst hst
                              rcases hcase with ⟨p, hc⟩ | ⟨p, e', hc⟩
                              · exact absurd hc (by simp)
                              · injection hc with he hi hp hee
                                subst he hi
                                refine framed_mono hfC ?_
                                intro j hj
                                simp only [compWriteOffsets, if_neg hval]
                                simp at hj ⊢
                                omega
                          | ok imgD =>
                              rw [hw4] at hst
                              simp only at hst
                              subst hst
                              rcases hcase with ⟨p, hc⟩ | ⟨p, e', hc⟩
                              · injection hc with he hi hp
                                subst he hi
                                refine framed_mono
                                  (framed_trans hfC (framed_writeLE32 hw4)) ?_
                                intro j hj
                                simp only [compWriteOffsets, if_neg hval]
                                simp at hj ⊢
                                omega
                              · exact absurd hc (by simp)
  exact hgoal (compBody img cur) rfl h

end ApkPatcher

namespace ApkPatcher

theorem patchCompLoop_framed (n : Nat) :
    ∀ (img : Image) (cur : Nat) (isP : Bool),
      Framed img (patchCompLoop img n cur isP).image
        ((patchCompLoop img n cur isP).trace.map compWriteOffsets).flatten := by
  induction n with
  | zero => intro img cur isP; exact framed_rfl _ _
  | succ n ih =>
      intro img cur isP
      rw [patchCompLoop]
      cases hb : compBody img cur with
      | readFail e => exact framed_rfl _ _
      | failed entry img1 p e =>
          simp only
          exact framed_mono (compBody_writes (Or.inr ⟨p, e, hb⟩))
            (by intro j hj; simpa using hj)
      | done entry img1 p =>
          simp only
          cases hadv : advanceOffset img1 cur with
          | error e =>
              simp only
              exact framed_mono (compBody_writes (Or.inl ⟨p, hb⟩))
                (by intro j hj; simpa using hj)
          | ok next =>
              simp only
              have h1 := compBody_writes (Or.inl ⟨p, hb⟩)
              have h2 := ih img1 next (isP || p)
              exact framed_trans h1 h2

theorem manifestBody_writes {img : Image} {cur : Nat} {sel : ManifestSel}
    {img1 : Image}
    (h : manifestBody img cur = .patched sel img1 ∨
      (∃ p e, manifestBody img cur = .failed sel img1 p e)) :
    Framed img img1 (manifestWriteOffsets (some sel)) := by
  have hgoal : ∀ st, st = manifestBody img cur →
      (st = .patched sel img1 ∨ (∃ p e, st = .failed sel img1 p e)) →
      Framed img img1 (manifestWriteOffsets (some sel)) := by
    intro st hst hcase
    unfold manifestBody at hst
    by_cases hname : sliceBytes img (cur + 46) (cur + 46 + 19) ≠ manifestFileName
    · rw [if_pos hname] at hst
      subst hst
      rcases hcase with hc | ⟨p, e, hc⟩ <;> exact absurd hc (by simp)
    · rw [if_neg hname] at hst
      cases h10 : readLE16 img (cur + 10) with
      | error e =>
          rw [h10] at hst
          simp only at hst
          subst hst
          rcases hcase with hc | ⟨p, e', hc⟩ <;> exact absurd hc (by simp)
      | ok method =>
      rw [h10] at hst
      simp only at hst
      by_cases hm0 : method ≠ 0
      · rw [if_pos hm0] at hst
        subst hst
        rcases hcase with hc | ⟨p, e', hc⟩ <;> exact absurd hc (by simp)
      · rw [if_neg hm0] at hst
        cases h42 : readLE32 img (cur + 42) with
        | error e =>
            rw [h42] at hst
            simp only at hst
            subst hst
            rcases hcase with hc | ⟨p, e', hc⟩ <;> exact absurd hc (by simp)
        | ok lfh =>
        rw [h42] at hst
        simp only at hst
        cases h24 : readLE32 img (cur + 24) with
        | error e =>
            rw [h24] at hst
            simp only at hst
            subst hst
            rcases hcase with hc | ⟨p, e', hc⟩ <;> exact absurd hc (by simp)
        | ok usize =>
        rw [h24] at hst
        simp only at hst
        cases h26 : readLE16 img (lfh + 26) with
        | error e =>
            rw [h26] at hst
            simp only at hst
            subst hst
            rcases hcase with hc | ⟨p, e', hc⟩ <;> exact absurd hc (by simp)
        | ok lfl =>
        rw [h26] at hst
        cases h28 : readLE16 img (lfh + 28) with
        | error e =>
            rw [h28] at hst
            simp only at hst
            subst hst
            rcases hcase with hc | ⟨p, e', hc⟩ <;> exact absurd hc (by simp)
        | ok lel =>
        rw [h28] at hst
        simp only at hst
        cases hrb : readByte img (lfh + 30 + lfl + lel) with
        | error e =>
            rw [hrb] at hst
            simp only at hst
            subst hst
            rcases hcase with hc | ⟨p, e', hc⟩ <;> exact absurd hc (by simp)
        | ok b =>
        rw [hrb] at hst
        simp only at hst
        by_cases hb3 : b = 3
        · rw [if_pos hb3] at hst
          subst hst
          rcases hcase with hc | ⟨p, e', hc⟩ <;> exact absurd hc (by simp)
        · rw [if_neg hb3] at hst
          cases hwb : writeByte img (lfh + 30 + lfl + lel) 3 with
          | error e =>
              rw [hwb] at hst
              simp only at hst
              subst hst
              rcases hcase with hc | ⟨p, e', hc⟩
              · exact absurd hc (by simp)
              · injection hc with hs hi hp he
                subst hs hi
                exact framed_rfl _ _
          | ok imgA =>
              rw [hwb] at hst
              simp only at hst
              have hfA : Framed img imgA _ := framed_writeByte hwb
              cases hw16 : writeLE32 imgA (cur + 16)
                  (crc32 0 (sliceBytes imgA (lfh + 30 + lfl + lel)
                    (lfh + 30 + lfl + lel + usize))) with
              | error e =>
                  rw [hw16] at hst
                  simp only at hst
                  subst hst
                  rcases hcase with hc | ⟨p, e', hc⟩
                  · exact absurd hc (by simp)
                  · injection hc with hs hi hp he
                    subst hs hi
                    refine framed_mono hfA ?_
                    intro j hj
                    simp only [manifestWriteOffsets]
                    simp at hj ⊢
                    omega
              | ok imgB =>
                  rw [hw16] at hst
                  simp only at hst
                  have hfB : Framed img imgB _ :=
                    framed_trans hfA (framed_writeLE32 hw16)
                  cases hw14 : writeLE32 imgB (lfh + 14)
                      (crc32 0 (sliceBytes imgA (lfh + 30 + lfl + lel)
                        (lfh + 30 + lfl + lel + usize))) with
                  | error e =>
                      rw [hw14] at hst
                      simp only at hst
                      subst hst
                      rcases hcase with hc | ⟨p, e', hc⟩
                      · exact absurd hc (by simp)
                      · injection hc with hs hi hp he
                        subst hs hi
                        refine framed_mono hfB ?_
                        intro j hj
                        simp only [manifestWriteOffsets]
                        simp at hj ⊢
                        omega
                  | ok imgC =>
                      rw [hw14] at hst
                      simp only at hst
                      subst hst
                      rcases hcase with hc | ⟨p, e', hc⟩
                      · injection hc with hs hi
                        subst hs hi
                        refine framed_mono
                          (framed_trans hfB (framed_writeLE32 hw14)) ?_
                        intro j hj
                        simp only [manifestWriteOffsets]
                        simp at hj ⊢
                        omega
                      · exact absurd hc (by simp)
  exact hgoal (manifestBody img cur) rfl h

set_option maxHeartbeats 1000000 in
theorem patchManifestLoop_framed (n : Nat) :
    ∀ (img : Image) (cur : Nat),
      Framed img (patchManifestLoop img n cur).image
        (manifestWriteOffsets (patchManifestLoop img n cur).sel) := by
  induction n with
  | zero => intro img cur; exact framed_rfl _ _
  | succ n ih =>
      intro img cur
      rw [patchManifestLoop_succ]
      cases hb : manifestBody img cur with
      | skip =>
          simp only
          cases hadv : advanceOffset img cur with
          | error e => exact framed_rfl _ _
          | ok next => exact ih img next
      | readFail e => exact framed_rfl _ _
      | breakClean => exact framed_rfl _ _
      | patched sel img1 => exact manifestBody_writes (Or.inl hb)
      | failed sel img1 p e => exact manifestBody_writes (Or.inr ⟨p, e, hb⟩)

/-- Byte offsets `patch` is allowed to touch on a given image, computed
from the scan the patcher itself performs: for each visited CDH entry
whose scanned method is invalid, the CDH method and compressed-size
fields and the referenced LFH method and compressed-size fields; for the
selected manifest entry (at most one), its first data byte and the CRC
fields of its CDH and LFH. -/
def patchAllowedOffsets (img : Image) : List Nat :=
  match findEocd img with
  | .error _ => []
  | .ok eocd =>
      match parseEocd img eocd with
      | .error _ => []
      | .ok (count, start) =>
          let c := patchInvalidCompressionMethod img count start
          ((c.trace.map compWriteOffsets).flatten) ++
            (match c.err with
             | some _ => []
             | none =>
                 manifestWriteOffsets
                   (patchManifestSignature c.image count start).sel)

end ApkPatcher

/-- C7: `ApkPatcher.patch` never changes the length of the image, and
every byte outside the repair fields is preserved: the only offsets it
may modify are, per scanned entry with an invalid compression method,
`CDH+10..11`, `CDH+20..23`, `LFH+8..9`, `LFH+18..21`, and, for the at
most one STORED `AndroidManifest.xml` entry it selects, the first data
byte, `CDH+16..19` and `LFH+14..17`. -/
theorem patch_frame (img : ApkPatcher.Image) :
    (ApkPatcher.patch img).2.length = img.length ∧
      ∀ j, j ∉ ApkPatcher.patchAllowedOffsets img →
        ((ApkPatcher.patch img).2)[j]? = img[j]? := by
  suffices h : ApkPatcher.Framed img (ApkPatcher.patch img).2
      (ApkPatcher.patchAllowedOffsets img) from ⟨h.1, h.2⟩
  unfold ApkPatcher.patch ApkPatcher.patchAllowedOffsets
  cases hfe : ApkPatcher.findEocd img with
  | error e => exact ApkPatcher.framed_rfl _ _
  | ok eocd =>
      simp only
      cases hpe : ApkPatcher.parseEocd img eocd with
      | error e => exact ApkPatcher.framed_rfl _ _
      | ok cs =>
          obtain ⟨count, start⟩ := cs
          simp only
          have hc := ApkPatcher.patchCompLoop_framed count img start false
          cases hce : (ApkPatcher.patchInvalidCompressionMethod img count start).err with
          | some e =>
              simp only
              exact ApkPatcher.framed_mono hc
                (fun j hj => List.mem_append_left _ hj)
          | none =>
              simp only
              have hm := ApkPatcher.patchManifestLoop_framed count
                (ApkPatcher.patchInvalidCompressionMethod img count start).image
                start
              cases hme : (ApkPatcher.patchManifestSignature
                  (ApkPatcher.patchInvalidCompressionMethod img count start).image
                  count start).err with
              | some e =>
                  simp only
                  exact ApkPatcher.framed_trans hc hm
              | none =>
                  simp only
                  exact ApkPatcher.framed_trans hc hm

set_option maxRecDepth 100000 in
/-- C7 witness: on a concrete well-formed image, a byte outside the
allowed field set (offset 0, the LFH signature) is preserved and the
length is unchanged. -/
theorem patch_frame_witness :
    (ApkPatcher.patch sampleZip).2.length = sampleZip.length ∧
      ((ApkPatcher.patch sampleZip).2)[0]? = sampleZip[0]? :=
  ⟨(patch_frame sampleZip).1,
   (patch_frame sampleZip).2 0 (by decide)⟩

namespace ApkPatcher

theorem advanceOffset_lb {img : Image} {cur next : Nat}
    (h : advanceOffset img cur = .ok next) : cur + 46 ≤ next := by
  unfold advanceOffset at h
  cases h28 : readLE16 img (cur + 28) with
  | error e => rw [h28] at h; simp at h
  | ok fl =>
  cases h30 : readLE16 img (cur + 30) with
  | error e => rw [h28, h30] at h; simp at h
  | ok el =>
  cases h32 : readLE16 img (cur + 32) with
  | error e => rw [h28, h30, h32] at h; simp at h
  | ok cl =>
      rw [h28, h30, h32] at h
      simp only at h
      injection h with h
      omega

theorem compBody_done_spec {img : Image} {cur : Nat} {entry : CompEntry}
    {img1 : Image} {p : Bool}
    (h : compBody img cur = .done entry img1 p) :
    entry.cursor = cur ∧
    readLE16 img (cur + 10) = .ok entry.method ∧
    readLE32 img (cur + 42) = .ok entry.lfh ∧
    ((validCompressionMethod entry.method = true ∧ img1 = img ∧ p = false) ∨
     (validCompressionMethod entry.method = false ∧ p = true ∧
      ∃ imgA imgB imgC usize,
        writeLE16 img (cur + 10) 0 = .ok imgA ∧
        readLE32 imgA (cur + 24) = .ok usize ∧
        writeLE32 imgA (cur + 20) usize = .ok imgB ∧
        writeLE16 imgB (entry.lfh + 8) 0 = .ok imgC ∧
        writeLE32 imgC (entry.lfh + 18) usize = .ok img1)) := by
  unfold compBody at h
  cases h10 : readLE16 img (cur + 10) with
  | error e => rw [h10] at h; simp only at h; exact absurd h (by simp)
  | ok method =>
  cases h42 : readLE32 img (cur + 42) with
  | error e => rw [h10, h42] at h; simp only at h; exact absurd h (by simp)
  | ok lfh =>
      rw [h10, h42] at h
      simp only at h
      by_cases hval : validCompressionMethod method
      · rw [if_pos hval] at h
        injection h with he hi hp
        subst he hi hp
        exact ⟨rfl, by simp, by simp, Or.inl ⟨by simpa using hval, rfl, rfl⟩⟩
      · rw [if_neg hval] at h
        cases hw1 : writeLE16 img (cur + 10) 0 with
        | error e => rw [hw1] at h; simp only at h; exact absurd h (by simp)
        | ok imgA =>
        rw [hw1] at h
        simp only at h
        cases hr24 : readLE32 imgA (cur + 24) with
        | error e => rw [hr24] at h; simp only at h; exact absurd h (by simp)
        | ok usize =>
        rw [hr24] at h
        simp only at h
        cases hw2 : writeLE32 imgA (cur + 20) usize with
        | error e => rw [hw2] at h; simp only at h; exact absurd h (by simp)
        | ok imgB =>
        rw [hw2] at h
        simp only at h
        cases hw3 : writeLE16 imgB (lfh + 8) 0 with
        | error e => rw [hw3] at h; simp only at h; exact absurd h (by simp)
        | ok imgC =>
        rw [hw3] at h
        simp only at h
        cases hw4 : writeLE32 imgC (lfh + 18) usize with
        | error e => rw [hw4] at h; simp only at h; exact absurd h (by simp)
        | ok imgD =>
            rw [hw4] at h
            simp only at h
            injection h with he hi hp
            subst he hi hp
            refine ⟨rfl, ?_, ?_,
              Or.inr ⟨?_, rfl, imgA, imgB, imgC, usize, rfl, hr24, hw2,
                ?_, ?_⟩⟩
            · simp
            · simp
            · simpa using hval
            · simpa using hw3
            · simpa using hw4

/-- CDH fields of a scanned entry that the C4 post-conditions read: the
method field `+10..11`, the compressed size `+20..23` and the
uncompressed size `+24..27`. -/
def cdhProtOffsets (e : CompEntry) : List Nat :=
  [e.cursor + 10, e.cursor + 11, e.cursor + 20, e.cursor + 21,
   e.cursor + 22, e.cursor + 23, e.cursor + 24, e.cursor + 25,
   e.cursor + 26, e.cursor + 27]

/-- LFH fields written (and then read back by the post-condition) for an
entry patched because of an invalid method. -/
def lfhWriteOffsets (e : CompEntry) : List Nat :=
  if validCompressionMethod e.method then []
  else [e.lfh + 8, e.lfh + 9, e.lfh + 18, e.lfh + 19, e.lfh + 20,
        e.lfh + 21]

/-- All fields of a scanned entry that the C4 post-conditions observe. -/
def entryProtOffsets (e : CompEntry) : List Nat :=
  cdhProtOffsets e ++ lfhWriteOffsets e

/-- Post-state of one scanned entry after the invalid-compression patch:
its method field holds a valid method, and, if it was patched (its
scanned method was invalid), the method is 0 (STORED), the compressed
size equals the uncompressed size, and the LFH method and compressed
size agree with the CDH. -/
def compPost (image : Image) (e : CompEntry) : Prop :=
  validCompressionMethod (readLE16T image (e.cursor + 10)) = true ∧
  (validCompressionMethod e.method = false →
    readLE16T image (e.cursor + 10) = 0 ∧
    readLE32T image (e.cursor + 20) = readLE32T image (e.cursor + 24) ∧
    readLE16T image (e.lfh + 8) = 0 ∧
    readLE32T image (e.lfh + 18) = readLE32T image (e.cursor + 20))

/-- Separation hypothesis for the invalid-compression patch: within any
entry, the LFH fields it writes do not alias its own CDH fields, and
across distinct entries, bytes written for one entry do not fall into
the observed fields of another. -/
def CompSep (tr : List CompEntry) : Prop :=
  (∀ a ∈ tr, ∀ j ∈ lfhWriteOffsets a, j ∉ cdhProtOffsets a) ∧
  (∀ a ∈ tr, ∀ b ∈ tr, a.cursor ≠ b.cursor →
    ∀ j ∈ compWriteOffsets b, j ∉ entryProtOffsets a)

instance (tr : List CompEntry) : Decidable (CompSep tr) := by
  unfold CompSep
  infer_instance

theorem compPost_congr {imgX imgY : Image} {offs : List Nat}
    {e : CompEntry} (hf : Framed imgX imgY offs)
    (hdisj : ∀ j ∈ entryProtOffsets e, j ∉ offs) (hp : compPost imgX e) :
    compPost imgY e := by
  have hpres : ∀ j ∈ entryProtOffsets e, imgY[j]? = imgX[j]? := by
    intro j hj
    exact hf.2 j (hdisj j hj)
  have hcd : ∀ k, k ∈ cdhProtOffsets e → imgY[k]? = imgX[k]? := by
    intro k hk
    exact hpres k (List.mem_append_left _ hk)
  have h16 : readLE16T imgY (e.cursor + 10) = readLE16T imgX (e.cursor + 10) :=
    readLE16T_congr (hcd _ (by simp [cdhProtOffsets]))
      (hcd _ (by simp [cdhProtOffsets]))
  have h20 : readLE32T imgY (e.cursor + 20) = readLE32T imgX (e.cursor + 20) :=
    readLE32T_congr (hcd _ (by simp [cdhProtOffsets]))
      (hcd _ (by simp [cdhProtOffsets])) (hcd _ (by simp [cdhProtOffsets]))
      (hcd _ (by simp [cdhProtOffsets]))
  have h24 : readLE32T imgY (e.cursor + 24) = readLE32T imgX (e.cursor + 24) :=
    readLE32T_congr (hcd _ (by simp [cdhProtOffsets]))
      (hcd _ (by simp [cdhProtOffsets])) (hcd _ (by simp [cdhProtOffsets]))
      (hcd _ (by simp [cdhProtOffsets]))
  refine ⟨by rw [h16]; exact hp.1, fun hinval => ?_⟩
  have hl : ∀ k, k ∈ lfhWriteOffsets e → imgY[k]? = imgX[k]? := by
    intro k hk
    exact hpres k (List.mem_append_right _ hk)
  have hl8 : readLE16T imgY (e.lfh + 8) = readLE16T imgX (e.lfh + 8) :=
    readLE16T_congr (hl _ (by simp [lfhWriteOffsets, hinval]))
      (hl _ (by simp [lfhWriteOffsets, hinval]))
  have hl18 : readLE32T imgY (e.lfh + 18) = readLE32T imgX (e.lfh + 18) :=
    readLE32T_congr (hl _ (by simp [lfhWriteOffsets, hinval]))
      (hl _ (by simp [lfhWriteOffsets, hinval]))
      (hl _ (by simp [lfhWriteOffsets, hinval]))
      (hl _ (by simp [lfhWriteOffsets, hinval]))
  obtain ⟨q1, q2, q3, q4⟩ := hp.2 hinval
  exact ⟨by rw [h16]; exact q1, by rw [h20, h24]; exact q2,
    by rw [hl8]; exact q3, by rw [hl18, h20]; exact q4⟩

end ApkPatcher

namespace ApkPatcher

theorem patchCompLoop_trace_lb (n : Nat) :
    ∀ (img : Image) (cur : Nat) (isP : Bool),
      (patchCompLoop img n cur isP).err = none →
      ∀ a ∈ (patchCompLoop img n cur isP).trace, cur ≤ a.cursor := by
  induction n with
  | zero => intro img cur isP _ a ha; exact absurd ha (List.not_mem_nil _)
  | succ n ih =>
      intro img cur isP herr a ha
      rw [patchCompLoop_succ] at herr ha
      cases hb : compBody img cur with
      | readFail e => rw [hb] at herr; exact absurd herr (by simp)
      | failed entry img1 p e => rw [hb] at herr; exact absurd herr (by simp)
      | done entry img1 p =>
          rw [hb] at herr ha
          simp only at herr ha
          cases hadv : advanceOffset img1 cur with
          | error e =>
              rw [hadv] at herr
              simp only at herr
              exact absurd herr (by simp)
          | ok next =>
              rw [hadv] at herr ha
              simp only at herr ha
              rcases List.mem_cons.mp ha with hae | hat
              · subst hae
                rw [(compBody_done_spec hb).1]
              · have := ih img1 next (isP || p) herr a hat
                have := advanceOffset_lb hadv
                omega

theorem compSep_tail {e : CompEntry} {tr : List CompEntry}
    (h : CompSep (e :: tr)) : CompSep tr :=
  ⟨fun a ha => h.1 a (List.mem_cons_of_mem _ ha),
   fun a ha b hb hne => h.2 a (List.mem_cons_of_mem _ ha)
     b (List.mem_cons_of_mem _ hb) hne⟩

theorem patchCompLoop_post (n : Nat) :
    ∀ (img : Image) (cur : Nat) (isP : Bool),
      (patchCompLoop img n cur isP).err = none →
      CompSep (patchCompLoop img n cur isP).trace →
      (∀ a ∈ (patchCompLoop img n cur isP).trace,
        compPost (patchCompLoop img n cur isP).image a) ∧
      (patchCompLoop img n cur isP).isPatched =
        (isP || (patchCompLoop img n cur isP).trace.any
          (fun a => !validCompressionMethod a.method)) := by
  induction n with
  | zero =>
      intro img cur isP _ _
      exact ⟨fun a ha => absurd ha (List.not_mem_nil _), by simp [patchCompLoop]⟩
  | succ n ih =>
      intro img cur isP herr hsep
      rw [patchCompLoop_succ] at herr hsep ⊢
      cases hb : compBody img cur with
      | readFail e => rw [hb] at herr; exact absurd herr (by simp)
      | failed entry img1 p e => rw [hb] at herr; exact absurd herr (by simp)
      | done entry img1 p =>
          rw [hb] at herr hsep
          simp only at herr hsep ⊢
          cases hadv : advanceOffset img1 cur with
          | error e =>
              rw [hadv] at herr
              simp only at herr
              exact absurd herr (by simp)
          | ok next =>
              rw [hadv] at herr hsep
              simp only at herr hsep ⊢
              have herr' : (patchCompLoop img1 n next (isP || p)).err = none := herr
              have hsep' : CompSep (patchCompLoop img1 n next (isP || p)).trace :=
                compSep_tail hsep
              obtain ⟨ihpost, ihflag⟩ := ih img1 next (isP || p) herr' hsep'
              obtain ⟨hcur, h10, h42, hspec⟩ := compBody_done_spec hb
              -- entry's own fields do not alias later entries' writes
              have hlater : ∀ j ∈ entryProtOffsets entry,
                  j ∉ ((patchCompLoop img1 n next (isP || p)).trace.map
                    compWriteOffsets).flatten := by
                intro j hj hmem
                rw [List.mem_flatten] at hmem
                obtain ⟨lst, hlst, hjl⟩ := hmem
                rw [List.mem_map] at hlst
                obtain ⟨b, hbmem, hbeq⟩ := hlst
                subst hbeq
                have hblb := patchCompLoop_trace_lb n img1 next (isP || p)
                  herr' b hbmem
                have hnext := advanceOffset_lb hadv
                have hne : entry.cursor ≠ b.cursor := by omega
                exact hsep.2 entry (List.mem_cons_self _ _)
                  b (List.mem_cons_of_mem _ hbmem) hne j hjl hj
              have hframe := patchCompLoop_framed n img1 next (isP || p)
              -- the post-condition for this entry holds on img1
              have hpost1 : compPost img1 entry := by
                rcases hspec with ⟨hval, himg, hp⟩ | ⟨hval, hp, imgA, imgB, imgC,
                    usize, hw1, hr24, hw2, hw3, hw4⟩
                · subst himg
                  constructor
                  · rw [hcur, ← readLE16_ok_eq h10]
                    exact hval
                  · intro hinval
                    rw [hval] at hinval
                    exact absurd hinval (by simp)
                · have hno : ∀ j ∈ lfhWriteOffsets entry,
                      ∀ k ∈ cdhProtOffsets entry, j ≠ k := by
                    intro j hj k hk hEq
                    exact hsep.1 entry (List.mem_cons_self _ _) j hj (hEq ▸ hk)
                  have hmemL : ∀ d : Nat, d = 8 ∨ d = 9 ∨ d = 18 ∨ d = 19 ∨
                      d = 20 ∨ d = 21 → entry.lfh + d ∈ lfhWriteOffsets entry := by
                    intro d hd
                    simp only [lfhWriteOffsets, hval, if_neg]
                    simp only [Bool.false_eq_true, if_false]
                    rcases hd with h | h | h | h | h | h <;> subst h <;> simp
                  have hmemC : ∀ d : Nat, d = 10 ∨ d = 11 ∨ d = 20 ∨ d = 21 ∨
                      d = 22 ∨ d = 23 ∨ d = 24 ∨ d = 25 ∨ d = 26 ∨ d = 27 →
                      entry.cursor + d ∈ cdhProtOffsets entry := by
                    intro d hd
                    simp only [cdhProtOffsets]
                    rcases hd with h|h|h|h|h|h|h|h|h|h <;> subst h <;> simp
                  obtain ⟨_, _, _, _, _, _, _, hw2o⟩ := writeLE32_spec hw2
                  obtain ⟨_, _, _, _, _, hw3o⟩ := writeLE16_spec hw3
                  obtain ⟨_, _, _, _, _, _, _, hw4o⟩ := writeLE32_spec hw4
                  rw [← hcur] at hw1 hr24 hw2
                  -- three preservation helpers into img1
                  have hpresC : ∀ d : Nat, (d = 10 ∨ d = 11 ∨ d = 24 ∨ d = 25 ∨
                      d = 26 ∨ d = 27) →
                      img1[entry.cursor + d]? = imgA[entry.cursor + d]? := by
                    intro d hd
                    have hC : entry.cursor + d ∈ cdhProtOffsets entry :=
                      hmemC d (by omega)
                    have h3 := fun (x : Nat) hx => (hno (entry.lfh + x) (hmemL x hx)
                      (entry.cursor + d) hC)
                    rw [hw4o _ (fun hEq => h3 18 (by omega) hEq.symm)
                         (fun hEq => h3 19 (by omega) (by omega))
                         (fun hEq => h3 20 (by omega) (by omega))
                         (fun hEq => h3 21 (by omega) (by omega)),
                       hw3o _ (fun hEq => h3 8 (by omega) hEq.symm)
                         (fun hEq => h3 9 (by omega) (by omega)),
                       hw2o _ (by omega) (by omega) (by omega) (by omega)]
                  have hpres20 : ∀ d : Nat, (d = 20 ∨ d = 21 ∨ d = 22 ∨ d = 23) →
                      img1[entry.cursor + d]? = imgB[entry.cursor + d]? := by
                    intro d hd
                    have hC : entry.cursor + d ∈ cdhProtOffsets entry :=
                      hmemC d (by omega)
                    have h3 := fun (x : Nat) hx => (hno (entry.lfh + x) (hmemL x hx)
                      (entry.cursor + d) hC)
                    rw [hw4o _ (fun hEq => h3 18 (by omega) hEq.symm)
                         (fun hEq => h3 19 (by omega) (by omega))
                         (fun hEq => h3 20 (by omega) (by omega))
                         (fun hEq => h3 21 (by omega) (by omega)),
                       hw3o _ (fun hEq => h3 8 (by omega) hEq.symm)
                         (fun hEq => h3 9 (by omega) (by omega))]
                  have hpresL8 : ∀ d : Nat, (d = 8 ∨ d = 9) →
                      img1[entry.lfh + d]? = imgC[entry.lfh + d]? := by
                    intro d hd
                    rw [hw4o _ (by omega) (by omega) (by omega) (by omega)]
                  -- the five field values on img1
                  have hA : readLE16T img1 (entry.cursor + 10) = 0 := by
                    have := readLE16T_writeLE16 hw1
                    rw [readLE16T_congr (hpresC 10 (by omega)) (by
                      have := hpresC 11 (by omega); simpa [Nat.add_assoc] using this)]
                    exact this
                  have hB : readLE32T img1 (entry.cursor + 20) = usize := by
                    have := readLE32T_writeLE32 hw2
                    rw [readLE32T_congr (hpres20 20 (by omega))
                      (by have := hpres20 21 (by omega); simpa [Nat.add_assoc] using this)
                      (by have := hpres20 22 (by omega); simpa [Nat.add_assoc] using this)
                      (by have := hpres20 23 (by omega); simpa [Nat.add_assoc] using this)]
                    exact this
                  have hC24 : readLE32T img1 (entry.cursor + 24) = usize := by
                    have hu := readLE32_ok_eq hr24
                    rw [readLE32T_congr (hpresC 24 (by omega))
                      (by have := hpresC 25 (by omega); simpa [Nat.add_assoc] using this)
                      (by have := hpresC 26 (by omega); simpa [Nat.add_assoc] using this)
                      (by have := hpresC 27 (by omega); simpa [Nat.add_assoc] using this)]
                    exact hu.symm
                  have hD : readLE16T img1 (entry.lfh + 8) = 0 := by
                    have := readLE16T_writeLE16 hw3
                    rw [readLE16T_congr (hpresL8 8 (by omega))
                      (by have := hpresL8 9 (by omega); simpa [Nat.add_assoc] using this)]
                    exact this
                  have hE : readLE32T img1 (entry.lfh + 18) = usize :=
                    readLE32T_writeLE32 hw4
                  refine ⟨?_, fun _ => ⟨hA, by rw [hB, hC24], hD, by rw [hE, hB]⟩⟩
                  rw [hA]
                  rfl
              have hpostFinal : compPost (patchCompLoop img1 n next (isP || p)).image
                  entry := compPost_congr hframe hlater hpost1
              constructor
              · intro a ha
                rcases List.mem_cons.mp ha with hae | hat
                · subst hae; exact hpostFinal
                · exact ihpost a hat
              · rw [ihflag]
                have hpval : p = !validCompressionMethod entry.method := by
                  rcases hspec with ⟨hval, _, hp⟩ | ⟨hval, hp, _⟩
                  · rw [hp, hval]; rfl
                  · rw [hp, hval]; rfl
                rw [hpval]
                simp [Bool.or_assoc]

end ApkPatcher

/-- A ZIP image whose single entry is STORED (method 0) but whose
compressed size (10) differs from its uncompressed size (42) and whose
LFH records method 8: because method 0 is valid, the repair routine never
touches it. -/
def storedMismatchZip : ApkPatcher.Image :=
  [80,75,3,4,20,0,0,0,8,0,0,0,0,0,0,0,0,0,10,0,0,0,42,0,0,0,5,0,0,0,65,46,
   116,120,116,0,0,0,0,0,0,0,0,0,0,0,0,0,0,0,0,0,0,0,0,0,0,0,0,0,0,0,0,0,0,
   0,0,0,0,0,0,0,0,0,0,0,0,80,75,1,2,20,0,20,0,0,0,0,0,0,0,0,0,0,0,0,0,10,0,
   0,0,42,0,0,0,5,0,0,0,0,0,0,0,0,0,0,0,0,0,0,0,0,0,65,46,116,120,116,80,75,
   5,6,0,0,0,0,1,0,1,0,51,0,0,0,77,0,0,0,0,0]

set_option maxRecDepth 100000 in
/-- C4 counterexample: after `_patch_invalid_compression_method` runs
(without error, patching nothing) over a directory whose single entry is
STORED with compressed size 10 ≠ uncompressed size 42 and an LFH method
of 8, the claimed STORED post-conditions fail: the routine only repairs
entries whose scanned method is invalid. -/
theorem patchCompression_stored_mismatch :
    (ApkPatcher.patchInvalidCompressionMethod storedMismatchZip 1 77).err = none ∧
    (ApkPatcher.patchInvalidCompressionMethod storedMismatchZip 1 77).image =
      storedMismatchZip ∧
    (ApkPatcher.patchInvalidCompressionMethod storedMismatchZip 1 77).isPatched
      = false ∧
    ApkPatcher.readLE16T
      (ApkPatcher.patchInvalidCompressionMethod storedMismatchZip 1 77).image
      (77 + 10) = 0 ∧
    ApkPatcher.readLE32T
      (ApkPatcher.patchInvalidCompressionMethod storedMismatchZip 1 77).image
      (77 + 20) = 10 ∧
    ApkPatcher.readLE32T
      (ApkPatcher.patchInvalidCompressionMethod storedMismatchZip 1 77).image
      (77 + 24) = 42 ∧
    ApkPatcher.readLE16T
      (ApkPatcher.patchInvalidCompressionMethod storedMismatchZip 1 77).image
      8 = 8 := by
  refine ⟨rfl, rfl, rfl, ?_, ?_, ?_, ?_⟩ <;> decide

/-- C4 (amended): whenever `_patch_invalid_compression_method` completes
without a read or write error and its writes do not alias the observed
header fields (`CompSep`), every scanned CDH's method field ends in the
valid set; every entry it patched (scanned method invalid) ends with
method 0, compressed size equal to the uncompressed size, and LFH method
and compressed size agreeing with the CDH; and the routine returns true
iff at least one scanned entry had an invalid method. -/
theorem patchInvalidCompressionMethod_post (img : ApkPatcher.Image)
    (count start : Nat)
    (herr : (ApkPatcher.patchInvalidCompressionMethod img count start).err = none)
    (hsep : ApkPatcher.CompSep
      (ApkPatcher.patchInvalidCompressionMethod img count start).trace) :
    (∀ a ∈ (ApkPatcher.patchInvalidCompressionMethod img count start).trace,
      ApkPatcher.compPost
        (ApkPatcher.patchInvalidCompressionMethod img count start).image a) ∧
    (ApkPatcher.patchInvalidCompressionMethod img count start).isPatched =
      (ApkPatcher.patchInvalidCompressionMethod img count start).trace.any
        (fun a => !ApkPatcher.validCompressionMethod a.method) := by
  have h := ApkPatcher.patchCompLoop_post count img start false herr hsep
  exact ⟨h.1, by
    show (ApkPatcher.patchCompLoop img count start false).isPatched = _
    rw [h.2]
    simp only [Bool.false_or]
    rfl⟩

set_option maxRecDepth 100000 in
/-- C4 witness: on a concrete image whose single entry carries the
invalid method 0xFFFF, the amended post-conditions hold and the routine
reports a patch. -/
theorem patchInvalidCompressionMethod_post_witness :
    (∀ a ∈ (ApkPatcher.patchInvalidCompressionMethod sampleZip 1 77).trace,
      ApkPatcher.compPost
        (ApkPatcher.patchInvalidCompressionMethod sampleZip 1 77).image a) ∧
    (ApkPatcher.patchInvalidCompressionMethod sampleZip 1 77).isPatched = true := by
  have h := patchInvalidCompressionMethod_post sampleZip 1 77 (by decide)
    (by decide)
  refine ⟨h.1, ?_⟩
  rw [h.2]
  decide

namespace ApkPatcher

theorem manifestBody_patched_spec {img : Image} {cur : Nat}
    {sel : ManifestSel} {img3 : Image}
    (h : manifestBody img cur = .patched sel img3) :
    sel.cursor = cur ∧
    ∃ b imgA imgB,
      readByte img sel.dataOffset = .ok b ∧ (b = 3 → False) ∧
      writeByte img sel.dataOffset 3 = .ok imgA ∧
      writeLE32 imgA (sel.cursor + 16)
        (crc32 0 (sliceBytes imgA sel.dataOffset
          (sel.dataOffset + sel.usize))) = .ok imgB ∧
      writeLE32 imgB (sel.lfh + 14)
        (crc32 0 (sliceBytes imgA sel.dataOffset
          (sel.dataOffset + sel.usize))) = .ok img3 := by
  unfold manifestBody at h
  by_cases hname : sliceBytes img (cur + 46) (cur + 46 + 19) ≠ manifestFileName
  · rw [if_pos hname] at h; exact absurd h (by simp)
  · rw [if_neg hname] at h
    cases h10 : readLE16 img (cur + 10) with
    | error e => rw [h10] at h; simp only at h; exact absurd h (by simp)
    | ok method =>
    rw [h10] at h
    simp only at h
    by_cases hm0 : method ≠ 0
    · rw [if_pos hm0] at h; exact absurd h (by simp)
    · rw [if_neg hm0] at h
      cases h42 : readLE32 img (cur + 42) with
      | error e => rw [h42] at h; simp only at h; exact absurd h (by simp)
      | ok lfh =>
      rw [h42] at h
      simp only at h
      cases h24 : readLE32 img (cur + 24) with
      | error e => rw [h24] at h; simp only at h; exact absurd h (by simp)
      | ok usize =>
      rw [h24] at h
      simp only at h
      cases h26 : readLE16 img (lfh + 26) with
      | error e => rw [h26] at h; simp only at h; exact absurd h (by simp)
      | ok lfl =>
      rw [h26] at h
      cases h28 : readLE16 img (lfh + 28) with
      | error e => rw [h28] at h; simp only at h; exact absurd h (by simp)
      | ok lel =>
      rw [h28] at h
      simp only at h
      cases hrb : readByte img (lfh + 30 + lfl + lel) with
      | error e => rw [hrb] at h; simp only at h; exact absurd h (by simp)
      | ok b =>
      rw [hrb] at h
      simp only at h
      by_cases hb3 : b = 3
      · rw [if_pos hb3] at h; exact absurd h (by simp)
      · rw [if_neg hb3] at h
        cases hwb : writeByte img (lfh + 30 + lfl + lel) 3 with
        | error e => rw [hwb] at h; simp only at h; exact absurd h (by simp)
        | ok imgA =>
        rw [hwb] at h
        simp only at h
        cases hw16 : writeLE32 imgA (cur + 16)
            (crc32 0 (sliceBytes imgA (lfh + 30 + lfl + lel)
              (lfh + 30 + lfl + lel + usize))) with
        | error e => rw [hw16] at h; simp only at h; exact absurd h (by simp)
        | ok imgB =>
        rw [hw16] at h
        simp only at h
        cases hw14 : writeLE32 imgB (lfh + 14)
            (crc32 0 (sliceBytes imgA (lfh + 30 + lfl + lel)
              (lfh + 30 + lfl + lel + usize))) with
        | error e => rw [hw14] at h; simp only at h; exact absurd h (by simp)
        | ok imgC =>
            rw [hw14] at h
            simp only at h
            injection h with hs hi
            subst hs hi
            refine ⟨rfl, b, imgA, imgB, ?_, hb3, ?_, ?_, ?_⟩
            · simpa using hrb
            · simpa using hwb
            · simpa using hw16
            · simpa using hw14

theorem patchManifestLoop_patched_spec (n : Nat) :
    ∀ (img : Image) (cur : Nat) (sel : ManifestSel),
      (patchManifestLoop img n cur).err = none →
      (patchManifestLoop img n cur).sel = some sel →
      (patchManifestLoop img n cur).isPatched = true ∧
      sel.cursor ≥ cur ∧
      ∃ b imgA imgB,
        readByte img sel.dataOffset = .ok b ∧ (b = 3 → False) ∧
        writeByte img sel.dataOffset 3 = .ok imgA ∧
        writeLE32 imgA (sel.cursor + 16)
          (crc32 0 (sliceBytes imgA sel.dataOffset
            (sel.dataOffset + sel.usize))) = .ok imgB ∧
        writeLE32 imgB (sel.lfh + 14)
          (crc32 0 (sliceBytes imgA sel.dataOffset
            (sel.dataOffset + sel.usize))) =
          .ok (patchManifestLoop img n cur).image := by
  induction n with
  | zero =>
      intro img cur sel _ hsel
      rw [patchManifestLoop_zero] at hsel
      exact absurd hsel (by simp)
  | succ n ih =>
      intro img cur sel herr hsel
      rw [patchManifestLoop_succ] at herr hsel ⊢
      cases hb : manifestBody img cur with
      | skip =>
          rw [hb] at herr hsel
          simp only at herr hsel ⊢
          cases hadv : advanceOffset img cur with
          | error e =>
              rw [hadv] at hsel
              simp only at hsel
              exact absurd hsel (by simp)
          | ok next =>
              rw [hadv] at herr hsel
              simp only at herr hsel ⊢
              have := ih img next sel herr hsel
              have hnext := advanceOffset_lb hadv
              exact ⟨this.1, by omega, this.2.2⟩
      | readFail e =>
          rw [hb] at hsel
          simp only at hsel
          exact absurd hsel (by simp)
      | breakClean =>
          rw [hb] at hsel
          simp only at hsel
          exact absurd hsel (by simp)
      | patched sel1 img1 =>
          rw [hb] at herr hsel
          simp only at herr hsel ⊢
          have hse : sel1 = sel := by injection hsel
          subst hse
          obtain ⟨hcur, hrest⟩ := manifestBody_patched_spec hb
          exact ⟨trivial, by omega, hrest⟩
      | failed sel1 img1 p e =>
          rw [hb] at herr
          simp only at herr
          exact absurd herr (by simp)

end ApkPatcher

/-- C3 (amended): whenever `_patch_manifest_signature` completes without
error having selected and patched an entry (which it does exactly when a
STORED `AndroidManifest.xml` entry with a first data byte other than 3 is
reached), and the entry's CDH CRC field, LFH CRC field and data region
are pairwise non-overlapping (with a non-empty data region), then in the
resulting image the entry's first data byte is 3 and both CRC fields hold
the CRC-32 of the entry's stored bytes.  The original claim fails without
the patching hypothesis: an already-`0x03` manifest is left untouched,
bogus CRC fields included. -/
theorem patch_manifest_postcondition (img : ApkPatcher.Image)
    (count start : Nat) (sel : ApkPatcher.ManifestSel)
    (herr : (ApkPatcher.patchManifestSignature img count start).err = none)
    (hsel : (ApkPatcher.patchManifestSignature img count start).sel = some sel)
    (hd1 : ∀ k, k < 4 →
      (sel.cursor + 16 + k < sel.dataOffset ∨
        sel.dataOffset + sel.usize ≤ sel.cursor + 16 + k) ∧
      (∀ k2, k2 < 4 → sel.cursor + 16 + k ≠ sel.lfh + 14 + k2))
    (hd2 : ∀ k, k < 4 →
      (sel.lfh + 14 + k < sel.dataOffset ∨
        sel.dataOffset + sel.usize ≤ sel.lfh + 14 + k))
    (husize : 0 < sel.usize) :
    (ApkPatcher.patchManifestSignature img count start).isPatched = true ∧
    ((ApkPatcher.patchManifestSignature img count start).image)[sel.dataOffset]?
      = some 3 ∧
    ApkPatcher.readLE32T
        (ApkPatcher.patchManifestSignature img count start).image
        (sel.cursor + 16) =
      ApkPatcher.crc32 0 (ApkPatcher.sliceBytes
        (ApkPatcher.patchManifestSignature img count start).image
        sel.dataOffset (sel.dataOffset + sel.usize)) ∧
    ApkPatcher.readLE32T
        (ApkPatcher.patchManifestSignature img count start).image
        (sel.lfh + 14) =
      ApkPatcher.crc32 0 (ApkPatcher.sliceBytes
        (ApkPatcher.patchManifestSignature img count start).image
        sel.dataOffset (sel.dataOffset + sel.usize)) := by
  unfold ApkPatcher.patchManifestSignature
  obtain ⟨hp, _, b, imgA, imgB, hrb, hb3, hwb, hw16, hw14⟩ :=
    ApkPatcher.patchManifestLoop_patched_spec count img start sel herr hsel
  refine ⟨hp, ?_, ?_, ?_⟩
  all_goals
    obtain ⟨hlenA, hdlt, hdA, hotherA⟩ := ApkPatcher.writeByte_spec hwb
    obtain ⟨hlen16, _, hcrclt, h160, h161, h162, h163, hother16⟩ :=
      ApkPatcher.writeLE32_spec hw16
    obtain ⟨hlen14, _, _, h140, h141, h142, h143, hother14⟩ :=
      ApkPatcher.writeLE32_spec hw14
  -- the final slice of stored bytes equals the slice CRC was computed on
  all_goals
    have hslice : ApkPatcher.sliceBytes
        (ApkPatcher.patchManifestLoop img count start).image
        sel.dataOffset (sel.dataOffset + sel.usize) =
        ApkPatcher.sliceBytes imgA sel.dataOffset
          (sel.dataOffset + sel.usize) := by
      apply ApkPatcher.sliceBytes_congr
      intro j hj1 hj2
      rw [hother14 j
          (by have := hd2 0 (by omega); omega)
          (by have := hd2 1 (by omega); omega)
          (by have := hd2 2 (by omega); omega)
          (by have := hd2 3 (by omega); omega),
        hother16 j
          (by have := (hd1 0 (by omega)).1; omega)
          (by have := (hd1 1 (by omega)).1; omega)
          (by have := (hd1 2 (by omega)).1; omega)
          (by have := (hd1 3 (by omega)).1; omega)]
  · -- first data byte is 3
    rw [hother14 sel.dataOffset
        (by have := hd2 0 (by omega); omega)
        (by have := hd2 1 (by omega); omega)
        (by have := hd2 2 (by omega); omega)
        (by have := hd2 3 (by omega); omega),
      hother16 sel.dataOffset
        (by have := (hd1 0 (by omega)).1; omega)
        (by have := (hd1 1 (by omega)).1; omega)
        (by have := (hd1 2 (by omega)).1; omega)
        (by have := (hd1 3 (by omega)).1; omega)]
    exact hdA
  · -- CDH CRC field
    rw [hslice]
    have hpre : ApkPatcher.readLE32T
        (ApkPatcher.patchManifestLoop img count start).image
        (sel.cursor + 16) = ApkPatcher.readLE32T imgB (sel.cursor + 16) := by
      apply ApkPatcher.readLE32T_congr
      · exact hother14 _ ((hd1 0 (by omega)).2 0 (by omega))
          (by have := (hd1 0 (by omega)).2 1 (by omega); omega)
          (by have := (hd1 0 (by omega)).2 2 (by omega); omega)
          (by have := (hd1 0 (by omega)).2 3 (by omega); omega)
      · exact hother14 _
          (by have := (hd1 1 (by omega)).2 0 (by omega); omega)
          (by have := (hd1 1 (by omega)).2 1 (by omega); omega)
          (by have := (hd1 1 (by omega)).2 2 (by omega); omega)
          (by have := (hd1 1 (by omega)).2 3 (by omega); omega)
      · exact hother14 _
          (by have := (hd1 2 (by omega)).2 0 (by omega); omega)
          (by have := (hd1 2 (by omega)).2 1 (by omega); omega)
          (by have := (hd1 2 (by omega)).2 2 (by omega); omega)
          (by have := (hd1 2 (by omega)).2 3 (by omega); omega)
      · exact hother14 _
          (by have := (hd1 3 (by omega)).2 0 (by omega); omega)
          (by have := (hd1 3 (by omega)).2 1 (by omega); omega)
          (by have := (hd1 3 (by omega)).2 2 (by omega); omega)
          (by have := (hd1 3 (by omega)).2 3 (by omega); omega)
    rw [hpre]
    exact ApkPatcher.readLE32T_writeLE32 hw16
  · -- LFH CRC field
    rw [hslice]
    exact ApkPatcher.readLE32T_writeLE32 hw14

/-- A ZIP image with one STORED `AndroidManifest.xml` entry whose single
data byte is already `0x03` but whose CDH and LFH CRC fields hold the
bogus value 0xDEADBEEF. -/
def manifest3Zip : ApkPatcher.Image :=
  [80,75,3,4,20,0,0,0,0,0,0,0,0,0,239,190,173,222,1,0,0,0,1,0,0,0,19,0,0,0,
   65,110,100,114,111,105,100,77,97,110,105,102,101,115,116,46,120,109,108,
   3,80,75,1,2,20,0,20,0,0,0,0,0,0,0,0,0,239,190,173,222,1,0,0,0,1,0,0,0,19,
   0,0,0,0,0,0,0,0,0,0,0,0,0,0,0,0,0,65,110,100,114,111,105,100,77,97,110,
   105,102,101,115,116,46,120,109,108,80,75,5,6,0,0,0,0,1,0,1,0,65,0,0,0,50,
   0,0,0,0,0]

/-- The same image with the manifest's data byte `0x00`, so the patch
applies. -/
def manifest0Zip : ApkPatcher.Image :=
  [80,75,3,4,20,0,0,0,0,0,0,0,0,0,239,190,173,222,1,0,0,0,1,0,0,0,19,0,0,0,
   65,110,100,114,111,105,100,77,97,110,105,102,101,115,116,46,120,109,108,
   0,80,75,1,2,20,0,20,0,0,0,0,0,0,0,0,0,239,190,173,222,1,0,0,0,1,0,0,0,19,
   0,0,0,0,0,0,0,0,0,0,0,0,0,0,0,0,0,65,110,100,114,111,105,100,77,97,110,
   105,102,101,115,116,46,120,109,108,80,75,5,6,0,0,0,0,1,0,1,0,65,0,0,0,50,
   0,0,0,0,0]

set_option maxRecDepth 200000 in
/-- C3 counterexample: after `patch` returns on an image whose central
directory contains a STORED `AndroidManifest.xml` entry (CDH at offset
50) whose first data byte is already `0x03`, the image is untouched and
the entry's CDH CRC field (0xDEADBEEF) differs from the CRC-32 of the
entry's stored bytes, refuting the unconditional post-condition. -/
theorem patch_manifest_crc_not_ensured :
    ApkPatcher.patch manifest3Zip = (false, manifest3Zip) ∧
    ApkPatcher.sliceBytes (ApkPatcher.patch manifest3Zip).2 (50 + 46)
      (50 + 46 + 19) = ApkPatcher.manifestFileName ∧
    ApkPatcher.readLE16T (ApkPatcher.patch manifest3Zip).2 (50 + 10) = 0 ∧
    ((ApkPatcher.patch manifest3Zip).2)[49]? = some 3 ∧
    ApkPatcher.readLE32T (ApkPatcher.patch manifest3Zip).2 (50 + 16) ≠
      ApkPatcher.crc32 0
        (ApkPatcher.sliceBytes (ApkPatcher.patch manifest3Zip).2 49 50) := by
  refine ⟨?_, ?_, ?_, ?_, ?_⟩ <;> decide

set_option maxRecDepth 200000 in
/-- C3 witness: the amended manifest post-condition applied to a
concrete image whose manifest data byte starts as `0x00`: the byte
becomes 3 and both CRC fields equal the CRC-32 of the stored bytes. -/
theorem patch_manifest_postcondition_witness :
    (ApkPatcher.patchManifestSignature manifest0Zip 1 50).isPatched = true ∧
    ((ApkPatcher.patchManifestSignature manifest0Zip 1 50).image)[49]? =
      some 3 ∧
    ApkPatcher.readLE32T
        (ApkPatcher.patchManifestSignature manifest0Zip 1 50).image (50 + 16) =
      ApkPatcher.crc32 0 (ApkPatcher.sliceBytes
        (ApkPatcher.patchManifestSignature manifest0Zip 1 50).image 49 50) ∧
    ApkPatcher.readLE32T
        (ApkPatcher.patchManifestSignature manifest0Zip 1 50).image (0 + 14) =
      ApkPatcher.crc32 0 (ApkPatcher.sliceBytes
        (ApkPatcher.patchManifestSignature manifest0Zip 1 50).image 49 50) := by
  have h := patch_manifest_postcondition manifest0Zip 1 50 ⟨50, 0, 49, 1⟩
    (by decide) (by decide)
    (by decide) (by decide) (by decide)
  exact h

namespace ApkPatcher

theorem patchCompLoop_noop (n : Nat) :
    ∀ (img : Image) (cur : Nat) (isP : Bool),
      (patchCompLoop img n cur isP).err = none →
      (∀ a ∈ (patchCompLoop img n cur isP).trace,
        validCompressionMethod a.method = true) →
      (patchCompLoop img n cur isP).image = img ∧
        (patchCompLoop img n cur isP).isPatched = isP := by
  induction n with
  | zero => intro img cur isP _ _; exact ⟨rfl, rfl⟩
  | succ n ih =>
      intro img cur isP herr hval
      rw [patchCompLoop_succ] at herr hval ⊢
      cases hb : compBody img cur with
      | readFail e => rw [hb] at herr; simp only at herr; exact absurd herr (by simp)
      | failed entry img1 p e =>
          rw [hb] at herr; simp only at herr; exact absurd herr (by simp)
      | done entry img1 p =>
          rw [hb] at herr hval
          simp only at herr hval ⊢
          cases hadv : advanceOffset img1 cur with
          | error e =>
              rw [hadv] at herr
              simp only at herr
              exact absurd herr (by simp)
          | ok next =>
              rw [hadv] at herr hval
              simp only at herr hval ⊢
              have hev : validCompressionMethod entry.method = true :=
                hval entry (List.mem_cons_self _ _)
              obtain ⟨_, _, _, hspec⟩ := compBody_done_spec hb
              rcases hspec with ⟨_, himg, hp⟩ | ⟨hinval, _, _⟩
              · subst himg hp
                have := ih _ next (isP || false)
                  herr (fun a ha => hval a (List.mem_cons_of_mem _ ha))
                simpa using this
              · rw [hev] at hinval
                exact absurd hinval (by simp)

theorem patchManifestLoop_noop (n : Nat) :
    ∀ (img : Image) (cur : Nat),
      (patchManifestLoop img n cur).err = none →
      (patchManifestLoop img n cur).isPatched = false →
      (patchManifestLoop img n cur).image = img := by
  induction n with
  | zero => intro img cur _ _; rfl
  | succ n ih =>
      intro img cur herr hnp
      rw [patchManifestLoop_succ] at herr hnp ⊢
      cases hb : manifestBody img cur with
      | skip =>
          rw [hb] at herr hnp
          simp only at herr hnp ⊢
          cases hadv : advanceOffset img cur with
          | error e => rfl
          | ok next =>
              rw [hadv] at herr hnp
              simp only at herr hnp ⊢
              exact ih img next herr hnp
      | readFail e => rfl
      | breakClean => rfl
      | patched sel img1 =>
          rw [hb] at hnp
          simp only at hnp
          exact absurd hnp (by simp)
      | failed sel img1 p e =>
          rw [hb] at herr; simp only at herr; exact absurd herr (by simp)

end ApkPatcher

/-- A ZIP image built so that the manifest patch of the first `patch`
run writes the AXML byte `0x03` into the high byte of the entry's own
CDH compression-method field (the LFH offset field points 19 bytes
before the CDH, making the computed data offset alias `CDH+11`): the
second run then sees the invalid method `0x0300` and patches again. -/
def aliasedZip : ApkPatcher.Image :=
  [0,0,0,0,0,0,0,0,0,0,0,0,0,0,0,0,0,0,0,0,0,0,0,0,0,0,0,0,0,0,0,0,0,0,0,0,
   0,0,0,0,80,75,1,2,0,0,0,0,0,0,0,0,0,0,0,0,0,0,0,0,1,0,0,0,1,0,0,0,19,0,0,
   0,0,0,0,0,0,0,0,0,0,0,21,0,0,0,65,110,100,114,111,105,100,77,97,110,105,
   102,101,115,116,46,120,109,108,80,75,5,6,0,0,0,0,1,0,1,0,65,0,0,0,40,0,0,
   0,0,0]

set_option maxRecDepth 400000 in
/-- C2 counterexample: on `aliasedZip` the first `patch` call returns
true, and the second call — on the image the first call produced — again
returns true (and again mutates the image) instead of returning false:
tamper-repair is not a fixpoint. -/
theorem patch_second_run_not_fixpoint :
    (ApkPatcher.patch aliasedZip).1 = true ∧
    (ApkPatcher.patch ((ApkPatcher.patch aliasedZip).2)).1 = true ∧
    (ApkPatcher.patch ((ApkPatcher.patch aliasedZip).2)).2 ≠
      (ApkPatcher.patch aliasedZip).2 := by
  refine ⟨?_, ?_, ?_⟩ <;> decide

/-- C2 (amended): tamper-repair is a fixpoint whenever the image produced
by the first run still presents a clean scan to the second run — the
EOCD and directory walk parse without error, every method the second
walk reads is valid, and the manifest scan finds nothing left to patch
(no writes of the first run aliased the scanned fields).  Then the
second `patch` call returns false and leaves every byte unchanged.  The
unconditional claim is false: a first-run write can alias a header field
and re-create work for the second run. -/
theorem patch_fixpoint_of_clean_rescan (img : ApkPatcher.Image)
    (eocd count start : Nat)
    (h1 : ApkPatcher.findEocd (ApkPatcher.patch img).2 = .ok eocd)
    (h2 : ApkPatcher.parseEocd (ApkPatcher.patch img).2 eocd = .ok (count, start))
    (hc : (ApkPatcher.patchInvalidCompressionMethod (ApkPatcher.patch img).2
      count start).err = none)
    (hv : ∀ a ∈ (ApkPatcher.patchInvalidCompressionMethod (ApkPatcher.patch img).2
      count start).trace, ApkPatcher.validCompressionMethod a.method = true)
    (hm : (ApkPatcher.patchManifestSignature (ApkPatcher.patch img).2
      count start).err = none)
    (hmp : (ApkPatcher.patchManifestSignature (ApkPatcher.patch img).2
      count start).isPatched = false) :
    ApkPatcher.patch ((ApkPatcher.patch img).2) =
      (false, (ApkPatcher.patch img).2) := by
  obtain ⟨hcimg0, hcflag0⟩ := ApkPatcher.patchCompLoop_noop count
    (ApkPatcher.patch img).2 start false hc hv
  have hcimg : (ApkPatcher.patchInvalidCompressionMethod
      (ApkPatcher.patch img).2 count start).image =
      (ApkPatcher.patch img).2 := hcimg0
  have hcflag : (ApkPatcher.patchInvalidCompressionMethod
      (ApkPatcher.patch img).2 count start).isPatched = false := hcflag0
  have hmimg : (ApkPatcher.patchManifestSignature
      (ApkPatcher.patch img).2 count start).image =
      (ApkPatcher.patch img).2 :=
    ApkPatcher.patchManifestLoop_noop count (ApkPatcher.patch img).2 start hm hmp
  have hpe := (patch_error_handling ((ApkPatcher.patch img).2)).2.2
    eocd count start h1 h2
  have hrun := (hpe.2 hc).2
  have hcomp_eq :
      ApkPatcher.patchManifestSignature
        (ApkPatcher.patchInvalidCompressionMethod (ApkPatcher.patch img).2
          count start).image count start =
      ApkPatcher.patchManifestSignature (ApkPatcher.patch img).2 count start := by
    rw [hcimg]
  rw [hcomp_eq] at hrun
  rw [hrun hm, hcflag, hmp, hmimg]
  rfl

set_option maxRecDepth 400000 in
/-- C2 witness: on a concrete well-formed image (one entry with the
invalid method 0xFFFF), the first run patches it and the second run is
the identity, returning false. -/
theorem patch_fixpoint_witness :
    ApkPatcher.patch ((ApkPatcher.patch sampleZip).2) =
      (false, (ApkPatcher.patch sampleZip).2) :=
  patch_fixpoint_of_clean_rescan sampleZip 128 1 77 (by decide) (by decide)
    (by decide) (by decide) (by decide) (by decide)
